import Mathlib

/-
Shallow embedding of the annotation core of the videojs-annotation plugin:
the range/shape validators (src/js/lib/utils.js), the Media Fragment codec
and W3C adapter (src/js/lib/w3c.js), the per-annotation secondsActive
computation (src/js/components/annotation.js) and the annotation state
index (the AnnotationState component).

JavaScript numbers are modelled as rationals (`ℚ`); a value that may be
NaN/Infinity after `parseFloat` is modelled as `Option ℚ` with `none` for
the non-finite case.  Strings handled character-by-character (the Media
Fragment codec) are modelled as `List Char`; other strings as `String`.
-/

/-! ### JS numeric helpers -/

/-- A JS number after `parseFloat`: `none` models a non-finite result
(NaN or ±Infinity). -/
abbrev JNum := Option ℚ

/-- JS truthiness of an optional number: `undefined`/`null` and `0` are falsy. -/
def qOptTruthy (o : Option ℚ) : Bool :=
  match o with
  | some q => decide (q ≠ 0)
  | none => false

/-- The JS idiom `o || d` on an optional number: the default is used when the
value is absent or `0` (falsy). -/
def qOptOr (o : Option ℚ) (d : ℚ) : ℚ :=
  match o with
  | some q => if q = 0 then d else q
  | none => d

/-- The spec-side nullish idiom `o ?? d`: the default is used only when the
value is absent (this is NOT what the code's `||` does at `0`). -/
def nullishOr (o : Option ℚ) (d : ℚ) : ℚ :=
  match o with
  | some q => q
  | none => d

/-! ### Ranges and shapes (internal format) -/

/-- A raw `range` object handed to `Utils.validateRange`:
`rstart = none` models the `start` field being `undefined`;
`rend = none` models `end` being `undefined` or `null`.
A present field holds the result of `parseFloat` on it (a `JNum`). -/
structure RawRange where
  rstart : Option JNum
  rend : Option JNum
deriving DecidableEq, Repr

/-- `Utils.validateRange` (src/js/lib/utils.js): `start` is coerced to a
finite number and reset to `0` when non-finite or negative; a present `end`
is coerced the same way and then forced to `start + 1` whenever it is
`≤ start` (the comparison is skipped when `start` is `undefined`).
Mutates and returns its input; modelled functionally. -/
def validateRange (range : RawRange) : RawRange :=
  let r1 : RawRange :=
    match range.rstart with
    | none => range
    | some s =>
      let s1 : ℚ := match s with
                    | none => 0
                    | some q => if q < 0 then 0 else q
      { range with rstart := some (some s1) }
  match range.rend with
  | none => r1
  | some e =>
    let e1 : ℚ := match e with
                  | none => 0
                  | some q => if q < 0 then 0 else q
    let e2 : ℚ :=
      match r1.rstart with
      | some (some s) => if e1 ≤ s then s + 1 else e1
      | _ => e1
    { r1 with rend := some (some e2) }

/-- The value a present `JNum` coerces to in `validateRange`:
non-finite or negative values become `0`. -/
def jCoerce (v : JNum) : ℚ :=
  match v with
  | none => 0
  | some q => if q < 0 then 0 else q

/-- A validated range as stored on an annotation: numeric `start`,
optional numeric `end`. -/
structure RangeQ where
  start : ℚ
  rend : Option ℚ
deriving DecidableEq, Repr

/-- An internal shape `{x1, y1, x2, y2}` (percent coordinates, arbitrary
corner order). -/
structure ShapeQ where
  x1 : ℚ
  y1 : ℚ
  x2 : ℚ
  y2 : ℚ
deriving DecidableEq, Repr

/-! ### secondsActive (src/js/components/annotation.js) -/

/-- The integer loop `for (let s = startSec; s <= endSec; s++)`. -/
def intSeq (s e : ℤ) : List ℤ :=
  (List.range (e - s + 1).toNat).map fun (n : ℕ) => s + (n : ℤ)

/-- The second-granularity loop `for (let i = range.start; i <= range.end; i += 1)`
over JS floats, run with enough fuel to terminate. -/
def qStepLoop : Nat → ℚ → ℚ → List ℚ
  | 0, _, _ => []
  | fuel + 1, i, e => if i ≤ e then i :: qStepLoop fuel (i + 1) e else []

/-- The `frameRate` falsy branch of `buildSecondsActiveArray`. -/
def secondsActiveNoFrame (range : RangeQ) (duration : ℚ) : List ℚ :=
  if qOptTruthy range.rend then
    let e := qOptOr range.rend 0
    qStepLoop ((⌈e - range.start⌉).toNat + 1) range.start e
  else
    range.start :: (if range.start < duration then [range.start + 1] else [])

/-- `Annotation.buildSecondsActiveArray` (src/js/components/annotation.js),
as a function of the annotation's range, the configured `options.frameRate`
and the video duration. -/
def buildSecondsActiveArray (range : RangeQ) (frameRate : Option ℚ) (duration : ℚ) : List ℚ :=
  match frameRate with
  | some f =>
    if f = 0 then secondsActiveNoFrame range duration
    else
      (intSeq ⌊range.start⌋ ⌈qOptOr range.rend (range.start + 1 / f)⌉).map
        (fun z : ℤ => (z : ℚ))
  | none => secondsActiveNoFrame range duration

theorem mem_intSeq (s e z : ℤ) : z ∈ intSeq s e ↔ s ≤ z ∧ z ≤ e := by
  unfold intSeq
  simp only [List.mem_map, List.mem_range]
  constructor
  · rintro ⟨n, hn, rfl⟩
    constructor <;> omega
  · rintro ⟨h1, h2⟩
    refine ⟨(z - s).toNat, by omega, by omega⟩

theorem intSeq_pairwise (s e : ℤ) : (intSeq s e).Pairwise (· < ·) := by
  unfold intSeq
  exact List.Pairwise.map _ (fun a b hab => by omega) (List.pairwise_lt_range _)

/-- Claim C3: with a configured non-zero frame rate, `buildSecondsActiveArray`
on an annotation range (start ≥ 0, end > start when present) returns exactly
the integers from `⌊range.start⌋` to `⌈range.end ?? range.start + 1/frameRate⌉`
inclusive, in (strictly) increasing order. -/
theorem secondsActiveFrame_spec (r : RangeQ) (f d : ℚ) (hf : f ≠ 0)
    (h0 : 0 ≤ r.start) (hend : ∀ e, r.rend = some e → r.start < e) :
    (∀ z : ℤ, ((z : ℚ)) ∈ buildSecondsActiveArray r (some f) d ↔
      ⌊r.start⌋ ≤ z ∧ z ≤ ⌈nullishOr r.rend (r.start + 1 / f)⌉) ∧
    (buildSecondsActiveArray r (some f) d).Pairwise (· < ·) ∧
    (∀ q ∈ buildSecondsActiveArray r (some f) d, ∃ z : ℤ, q = (z : ℚ)) := by
  have hor : qOptOr r.rend (r.start + 1 / f) = nullishOr r.rend (r.start + 1 / f) := by
    cases hrend : r.rend with
    | none => rfl
    | some e =>
      have he := hend e hrend
      have : e ≠ 0 := by
        intro h
        rw [h] at he
        exact absurd (lt_of_le_of_lt h0 he) (lt_irrefl 0)
      simp [qOptOr, nullishOr, this]
  simp only [buildSecondsActiveArray]
  rw [if_neg hf, hor]
  refine ⟨?_, ?_, ?_⟩
  · intro z
    simp only [List.mem_map]
    constructor
    · rintro ⟨w, hw, hwz⟩
      have : w = z := by exact_mod_cast hwz
      subst this
      exact (mem_intSeq _ _ _).mp hw
    · intro hz
      exact ⟨z, (mem_intSeq _ _ _).mpr hz, rfl⟩
  · refine List.Pairwise.map _ ?_ (intSeq_pairwise _ _)
    intro a b hab
    exact_mod_cast hab
  · intro q hq
    simp only [List.mem_map] at hq
    obtain ⟨w, _, hwq⟩ := hq
    exact ⟨w, hwq.symm⟩

/-- Witness for C3: `{start: 10.2, end: 10.6}` with frameRate 30 is active
exactly during the integer seconds 10 and 11, i.e. the array is `[10, 11]`. -/
theorem secondsActiveFrame_spec_w :
    ((30 : ℚ) ≠ 0) ∧
    (((11 : ℤ) : ℚ)) ∈ buildSecondsActiveArray ⟨10.2, some 10.6⟩ (some 30) 0 ∧
    buildSecondsActiveArray ⟨10.2, some 10.6⟩ (some 30) 0 = [(10 : ℚ), 11] := by
  have hfl : ⌊(10.2 : ℚ)⌋ = (10 : ℤ) := by
    rw [Int.floor_eq_iff] <;> norm_num
  have hcl : ⌈(10.6 : ℚ)⌉ = (11 : ℤ) := by
    rw [Int.ceil_eq_iff] <;> norm_num
  have hseq : intSeq 10 11 = [(10 : ℤ), 11] := by decide
  have harr : buildSecondsActiveArray ⟨10.2, some 10.6⟩ (some 30) 0 = [(10 : ℚ), 11] := by
    simp only [buildSecondsActiveArray]
    rw [if_neg (by norm_num : ¬ (30 : ℚ) = 0),
      show qOptOr (some (10.6 : ℚ)) ((10.2 : ℚ) + 1 / 30) = 10.6 from by norm_num [qOptOr],
      hfl, hcl, hseq]
    norm_num
  refine ⟨by norm_num, ?_, harr⟩
  have h := secondsActiveFrame_spec ⟨10.2, some 10.6⟩ 30 0 (by norm_num) (by norm_num)
    (by intro e he; cases he; norm_num)
  refine (h.1 11).mpr ⟨?_, ?_⟩
  · dsimp only
    rw [hfl]
    norm_num
  · dsimp only [nullishOr]
    rw [hcl]

/-- Counterexample to claim C4 as stated: for the point range `{start: 9}`
with duration `10` (no frame rate) the code returns `[9, 10]`, including
`start + 1 = 10` even though `start + 1 < duration` fails. -/
theorem secondsActivePoint_cex :
    buildSecondsActiveArray ⟨(9 : ℚ), none⟩ none 10 = [(9 : ℚ), 10] ∧
    ¬ ((9 : ℚ) + 1 < 10) := by
  constructor
  · norm_num [buildSecondsActiveArray, secondsActiveNoFrame, qOptTruthy]
  · norm_num

/-- Claim C4 (amended): for a point annotation (no `range.end`) with no frame
rate, `buildSecondsActiveArray` returns `[range.start]` together with
`range.start + 1`, the latter included exactly when `range.start` itself is
still less than the video duration. -/
theorem secondsActivePoint_spec (s d : ℚ) :
    buildSecondsActiveArray ⟨s, none⟩ none d =
      if s < d then [s, s + 1] else [s] := by
  by_cases h : s < d <;>
    simp [buildSecondsActiveArray, secondsActiveNoFrame, qOptTruthy, h]

/-! ### Decimal rendering and parsing of JS numbers

`numToChars` models JavaScript's number-to-string conversion for finite
decimal values (the form `-?digits(.digits)?` that `String(x)` produces);
`parseF` models `parseFloat` on such strings (sign, integer digits,
optional fraction; trailing garbage ignored; `none` for NaN). -/

/-- The decimal digit character for `d < 10`. -/
def digitChar (d : ℕ) : Char :=
  match d with
  | 0 => '0' | 1 => '1' | 2 => '2' | 3 => '3' | 4 => '4'
  | 5 => '5' | 6 => '6' | 7 => '7' | 8 => '8' | _ => '9'

def isDigitCh (c : Char) : Bool := '0' ≤ c && c ≤ '9'

def digitVal (c : Char) : ℕ := c.toNat - 48

theorem digitVal_digitChar (d : ℕ) (h : d < 10) : digitVal (digitChar d) = d := by
  interval_cases d <;> decide

theorem isDigitCh_digitChar (d : ℕ) (h : d < 10) : isDigitCh (digitChar d) = true := by
  interval_cases d <;> decide

/-- Most-significant-first decimal digits of a natural number (fuelled). -/
def natToCharsAux : ℕ → ℕ → List Char
  | 0, _ => []
  | fuel + 1, n =>
    if n < 10 then [digitChar n]
    else natToCharsAux fuel (n / 10) ++ [digitChar (n % 10)]

def natToChars (n : ℕ) : List Char := natToCharsAux (n + 1) n

/-- Read a digit string most-significant-first, continuing from `acc`. -/
def charsToNat (acc : ℕ) : List Char → ℕ
  | [] => acc
  | c :: cs => charsToNat (acc * 10 + digitVal c) cs

theorem charsToNat_append (xs ys : List Char) (acc : ℕ) :
    charsToNat acc (xs ++ ys) = charsToNat (charsToNat acc xs) ys := by
  induction xs generalizing acc with
  | nil => rfl
  | cons c cs ih => exact ih _

theorem natToCharsAux_digits (fuel : ℕ) :
    ∀ n, n < fuel → ∀ c ∈ natToCharsAux fuel n, isDigitCh c = true := by
  induction fuel with
  | zero => intro n hn; omega
  | succ fuel ih =>
    intro n hn c hc
    by_cases h : n < 10
    · simp [natToCharsAux, h] at hc
      subst hc
      exact isDigitCh_digitChar n h
    · simp only [natToCharsAux, if_neg h, List.mem_append, List.mem_singleton] at hc
      rcases hc with hc | hc
      · exact ih (n / 10) (by omega) c hc
      · subst hc
        exact isDigitCh_digitChar _ (Nat.mod_lt _ (by norm_num))

theorem natToCharsAux_ne_nil (fuel n : ℕ) (hn : n < fuel) :
    natToCharsAux fuel n ≠ [] := by
  cases fuel with
  | zero => omega
  | succ fuel =>
    by_cases h : n < 10 <;> simp [natToCharsAux, h]

theorem natToCharsAux_charsToNat (fuel : ℕ) :
    ∀ n acc, n < fuel →
      charsToNat acc (natToCharsAux fuel n) =
        acc * 10 ^ (natToCharsAux fuel n).length + n := by
  induction fuel with
  | zero => intro n acc hn; omega
  | succ fuel ih =>
    intro n acc hn
    by_cases h : n < 10
    · rw [show natToCharsAux (fuel + 1) n = [digitChar n] from by simp [natToCharsAux, h]]
      show acc * 10 + digitVal (digitChar n) = acc * 10 ^ 1 + n
      rw [digitVal_digitChar n h]
      ring
    · have hdiv : n / 10 < fuel := by
        have := Nat.div_lt_self (by omega : 0 < n) (by norm_num : 1 < 10)
        omega
      simp only [natToCharsAux, if_neg h, charsToNat_append, List.length_append,
        List.length_singleton]
      rw [ih (n / 10) acc hdiv]
      show (acc * 10 ^ (natToCharsAux fuel (n / 10)).length + n / 10) * 10 +
          digitVal (digitChar (n % 10)) =
        acc * 10 ^ ((natToCharsAux fuel (n / 10)).length + 1) + n
      rw [digitVal_digitChar _ (Nat.mod_lt _ (by norm_num : (0:ℕ) < 10)), pow_succ]
      set L := (natToCharsAux fuel (n / 10)).length with hL
      conv_rhs => rw [← Nat.div_add_mod n 10]
      ring

theorem natToChars_digits (n : ℕ) : ∀ c ∈ natToChars n, isDigitCh c = true :=
  natToCharsAux_digits (n + 1) n (by omega)

theorem natToChars_ne_nil (n : ℕ) : natToChars n ≠ [] :=
  natToCharsAux_ne_nil (n + 1) n (by omega)

theorem charsToNat_natToChars (n : ℕ) : charsToNat 0 (natToChars n) = n := by
  have := natToCharsAux_charsToNat (n + 1) n 0 (by omega)
  simpa [natToChars] using this

/-- Exactly `k` fractional digits of `f` (most significant first, left-padded
with zeros). -/
def fracChars : ℕ → ℕ → List Char
  | 0, _ => []
  | k + 1, f => fracChars k (f / 10) ++ [digitChar (f % 10)]

theorem fracChars_length (k : ℕ) : ∀ f, (fracChars k f).length = k := by
  induction k with
  | zero => intro f; rfl
  | succ k ih => intro f; simp [fracChars, ih]

theorem fracChars_digits (k : ℕ) : ∀ f c, c ∈ fracChars k f → isDigitCh c = true := by
  induction k with
  | zero => intro f c hc; simp [fracChars] at hc
  | succ k ih =>
    intro f c hc
    simp only [fracChars, List.mem_append, List.mem_singleton] at hc
    rcases hc with hc | hc
    · exact ih _ c hc
    · subst hc
      exact isDigitCh_digitChar _ (Nat.mod_lt _ (by norm_num))

theorem charsToNat_fracChars (k : ℕ) :
    ∀ f acc, f < 10 ^ k → charsToNat acc (fracChars k f) = acc * 10 ^ k + f := by
  induction k with
  | zero =>
    intro f acc hf
    rw [pow_zero] at hf
    have hf0 : f = 0 := by omega
    subst hf0
    show acc = acc * 10 ^ 0 + 0
    simp
  | succ k ih =>
    intro f acc hf
    have hdiv : f / 10 < 10 ^ k := by
      rw [Nat.div_lt_iff_lt_mul (by norm_num : (0:ℕ) < 10)]
      calc f < 10 ^ (k + 1) := hf
      _ = 10 ^ k * 10 := by rw [pow_succ]
    simp only [fracChars, charsToNat_append]
    rw [ih (f / 10) acc hdiv]
    show (acc * 10 ^ k + f / 10) * 10 + digitVal (digitChar (f % 10)) =
      acc * 10 ^ (k + 1) + f
    rw [digitVal_digitChar _ (Nat.mod_lt _ (by norm_num : (0:ℕ) < 10)), pow_succ]
    conv_rhs => rw [← Nat.div_add_mod f 10]
    ring

/-- Fuelled count of how many times `p` divides `n`. -/
def factorCountAux (p : ℕ) : ℕ → ℕ → ℕ
  | 0, _ => 0
  | fuel + 1, n =>
    if 2 ≤ p ∧ 0 < n ∧ n % p = 0 then factorCountAux p fuel (n / p) + 1 else 0

def factorCount (p n : ℕ) : ℕ := factorCountAux p n n

/-- The decimal exponent chosen for a (reduced) denominator `d`: when
`d = 2^a * 5^b` this is `max a b`, the least `k` with `d ∣ 10^k`. -/
def decExp (d : ℕ) : ℕ := max (factorCount 2 d) (factorCount 5 d)

/-- `q` is a finite decimal: its reduced denominator divides `10 ^ decExp q.den`.
Every finite JS float that prints without an exponent is of this form. -/
def IsDec (q : ℚ) : Prop := (q.den : ℕ) ∣ 10 ^ decExp q.den

/-- Digits-and-point part of the decimal rendering: the scaled mantissa `m`
(the value times `10^k`) printed with `k` fractional digits. -/
def numToCharsCore (sign : List Char) (m k : ℕ) : List Char :=
  if k = 0 then sign ++ natToChars m
  else sign ++ natToChars (m / 10 ^ k) ++ '.' :: fracChars k (m % 10 ^ k)

/-- JS number-to-string for finite decimals: optional sign, integer digits,
and (when the value is not an integer) a point and the fractional digits. -/
def numToChars (q : ℚ) : List Char :=
  numToCharsCore (if q.num < 0 then ['-'] else [])
    (q.num.natAbs * (10 ^ decExp q.den / q.den)) (decExp q.den)

/-- The optional leading sign step of `parseFloat`. -/
def parseSign (s : List Char) : ℚ × List Char :=
  match s with
  | [] => (1, [])
  | c :: r => if c = '-' then (-1, r) else if c = '+' then (1, r) else (1, c :: r)

/-- Longest digit prefix and the rest. -/
def spanDigits : List Char → List Char × List Char
  | [] => ([], [])
  | c :: cs =>
    if isDigitCh c then (c :: (spanDigits cs).1, (spanDigits cs).2)
    else ([], c :: cs)

/-- `parseFloat` on a character list: sign, integer digits, optional `.` and
fraction digits; any trailing garbage is ignored; `none` models NaN. -/
def parseF (s : List Char) : Option ℚ :=
  let sr := parseSign s
  let ds := spanDigits sr.2
  let fs : List Char :=
    match ds.2 with
    | c :: r => if c = '.' then (spanDigits r).1 else []
    | [] => []
  if ds.1 = [] ∧ fs = [] then none
  else some (sr.1 * ((charsToNat 0 ds.1 : ℚ) + (charsToNat 0 fs : ℚ) / 10 ^ fs.length))

theorem spanDigits_append (ds rest : List Char)
    (hds : ∀ c ∈ ds, isDigitCh c = true)
    (hrest : ∀ c, rest.head? = some c → isDigitCh c = false) :
    spanDigits (ds ++ rest) = (ds, rest) := by
  induction ds with
  | nil =>
    cases rest with
    | nil => rfl
    | cons c cs =>
      have := hrest c rfl
      simp [spanDigits, this]
  | cons c cs ih =>
    have hc := hds c (by simp)
    have ih2 := ih (fun c hc => hds c (by simp [hc]))
    simp [spanDigits, hc, ih2]

theorem parseSign_not_sign (s : List Char)
    (h : ∀ c, s.head? = some c → (c ≠ '-' ∧ c ≠ '+')) :
    parseSign s = (1, s) := by
  cases s with
  | nil => rfl
  | cons c r =>
    obtain ⟨h1, h2⟩ := h c rfl
    simp [parseSign, h1, h2]

theorem isDigit_ne (c x : Char) (hc : isDigitCh c = true) (hx : isDigitCh x = false) :
    c ≠ x := by
  intro h
  subst h
  rw [hc] at hx
  cases hx

theorem head_digit_not_sign (l : List Char) (hl : ∀ c ∈ l, isDigitCh c = true) :
    ∀ c, l.head? = some c → (c ≠ '-' ∧ c ≠ '+') := by
  intro c hc
  cases l with
  | nil => cases hc
  | cons a r =>
    simp only [List.head?_cons, Option.some.injEq] at hc
    subst hc
    have ha := hl a (by simp)
    exact ⟨isDigit_ne a _ ha (by decide), isDigit_ne a _ ha (by decide)⟩

theorem head?_append_left (l r : List Char) (h : l ≠ []) : (l ++ r).head? = l.head? := by
  cases l with
  | nil => exact absurd rfl h
  | cons a t => rfl

/-- Parsing the rendered digits of `sign, m, k` recovers `± m / 10^k`. -/
theorem parseF_numToCharsCore (neg : Bool) (m k : ℕ) :
    parseF (numToCharsCore (cond neg ['-'] []) m k) =
      some ((cond neg (-1 : ℚ) 1) * ((m : ℚ) / 10 ^ k)) := by
  by_cases hk : k = 0
  · subst hk
    have hspan : spanDigits (natToChars m) = (natToChars m, []) := by
      have := spanDigits_append (natToChars m) [] (natToChars_digits m) (by intro c hc; cases hc)
      simpa using this
    have hsign : parseSign (cond neg ['-'] [] ++ natToChars m) = (cond neg (-1 : ℚ) 1, natToChars m) := by
      cases neg with
      | false =>
        simpa using parseSign_not_sign (natToChars m) (head_digit_not_sign _ (natToChars_digits m))
      | true => simp [parseSign]
    unfold numToCharsCore parseF
    rw [if_pos rfl]
    simp only [hsign, hspan]
    rw [if_neg (by simp [natToChars_ne_nil m])]
    norm_num [show charsToNat 0 ([] : List Char) = 0 from rfl, charsToNat_natToChars]
  · have hfp : m % 10 ^ k < 10 ^ k := Nat.mod_lt _ (by positivity)
    have hspan1 : spanDigits (natToChars (m / 10 ^ k) ++ '.' :: fracChars k (m % 10 ^ k)) =
        (natToChars (m / 10 ^ k), '.' :: fracChars k (m % 10 ^ k)) :=
      spanDigits_append _ _ (natToChars_digits _) (by
        intro c hc
        simp only [List.head?_cons, Option.some.injEq] at hc
        subst hc
        decide)
    have hspan2 : spanDigits (fracChars k (m % 10 ^ k)) = (fracChars k (m % 10 ^ k), []) := by
      have := spanDigits_append (fracChars k (m % 10 ^ k)) []
        (fun c hc => fracChars_digits k _ c hc) (by intro c hc; cases hc)
      simpa using this
    have hsign : parseSign (cond neg ['-'] [] ++ natToChars (m / 10 ^ k) ++
        '.' :: fracChars k (m % 10 ^ k)) =
        (cond neg (-1 : ℚ) 1, natToChars (m / 10 ^ k) ++ '.' :: fracChars k (m % 10 ^ k)) := by
      cases neg with
      | false =>
        simpa using parseSign_not_sign (natToChars (m / 10 ^ k) ++ '.' :: fracChars k (m % 10 ^ k))
          (by
            intro c hc
            rw [head?_append_left _ _ (natToChars_ne_nil _)] at hc
            exact head_digit_not_sign _ (natToChars_digits _) c hc)
      | true => simp [parseSign]
    have hdm : m / 10 ^ k * 10 ^ k + m % 10 ^ k = m := by
      have h0 := Nat.div_add_mod m (10 ^ k)
      rw [mul_comm] at h0
      exact h0
    have hsplit : (10 : ℚ) ^ k ≠ 0 := by positivity
    have hntc := natToChars_ne_nil (m / 10 ^ k)
    have hc2n : charsToNat 0 (natToChars (m / 10 ^ k)) = m / 10 ^ k :=
      charsToNat_natToChars _
    have hc2f : charsToNat 0 (fracChars k (m % 10 ^ k)) = m % 10 ^ k := by
      have := charsToNat_fracChars k (m % 10 ^ k) 0 hfp
      simpa using this
    have hlen : (fracChars k (m % 10 ^ k)).length = k := fracChars_length k _
    unfold numToCharsCore parseF
    rw [if_neg hk]
    simp only [hsign, hspan1, hspan2, if_true, hc2n, hc2f, hlen]
    rw [if_neg (by simp [hntc])]
    congr 1
    congr 1
    rw [eq_div_iff hsplit, add_mul, div_mul_cancel₀ _ hsplit]
    exact_mod_cast hdm

/-- Parsing the rendered form of a finite decimal recovers it:
`parseFloat(String(q)) = q`. -/
theorem parseF_numToChars (q : ℚ) (h : IsDec q) : parseF (numToChars q) = some q := by
  have hden0 : (q.den : ℕ) ≠ 0 := q.den_nz
  have hcden : q.den * (10 ^ decExp q.den / q.den) = 10 ^ decExp q.den :=
    Nat.mul_div_cancel' h
  have hc0 : (10 ^ decExp q.den / q.den : ℕ) ≠ 0 := by
    intro h0
    rw [h0, mul_zero] at hcden
    exact absurd hcden.symm (by positivity)
  have hb : (if q.num < 0 then ['-'] else []) = cond (decide (q.num < 0)) ['-'] [] := by
    by_cases hq : q.num < 0 <;> simp [hq]
  unfold numToChars
  rw [hb, parseF_numToCharsCore]
  congr 1
  have habs : (cond (decide (q.num < 0)) (-1 : ℚ) 1) * (q.num.natAbs : ℚ) = (q.num : ℚ) := by
    by_cases hq : q.num < 0
    · rw [decide_eq_true hq]
      simp only [cond_true]
      rw [Int.cast_natAbs, abs_of_neg hq]
      push_cast
      ring
    · rw [decide_eq_false hq]
      simp only [cond_false]
      rw [Int.cast_natAbs, abs_of_nonneg (not_lt.mp hq)]
      ring
  have h10 : ((10 : ℚ)) ^ decExp q.den = (q.den : ℚ) * ((10 ^ decExp q.den / q.den : ℕ) : ℚ) := by
    exact_mod_cast congrArg (Nat.cast (R := ℚ)) hcden.symm
  have hcQ : ((10 ^ decExp q.den / q.den : ℕ) : ℚ) ≠ 0 := by exact_mod_cast hc0
  calc cond (decide (q.num < 0)) (-1 : ℚ) 1 *
        ((↑(q.num.natAbs * (10 ^ decExp q.den / q.den)) : ℚ) / 10 ^ decExp q.den)
      = (cond (decide (q.num < 0)) (-1 : ℚ) 1 * (q.num.natAbs : ℚ)) *
          ((10 ^ decExp q.den / q.den : ℕ) : ℚ) / ((10 : ℚ) ^ decExp q.den) := by
        push_cast
        ring
    _ = (q.num : ℚ) * ((10 ^ decExp q.den / q.den : ℕ) : ℚ) /
          ((q.den : ℚ) * ((10 ^ decExp q.den / q.den : ℕ) : ℚ)) := by rw [habs, h10]
    _ = (q.num : ℚ) / (q.den : ℚ) := by rw [mul_div_mul_right _ _ hcQ]
    _ = q := Rat.num_div_den q

/-- `numToChars` never renders the empty string. -/
theorem numToChars_ne_nil (q : ℚ) : numToChars q ≠ [] := by
  unfold numToChars numToCharsCore
  by_cases hk : decExp q.den = 0
  · rw [if_pos hk]
    simp [natToChars_ne_nil]
  · rw [if_neg hk]
    simp

/-- Every rendered character is a sign, a point, or a digit. -/
theorem numToChars_chars (q : ℚ) :
    ∀ ch ∈ numToChars q, ch = '-' ∨ ch = '.' ∨ isDigitCh ch = true := by
  intro ch hch
  unfold numToChars numToCharsCore at hch
  by_cases hk : decExp q.den = 0
  · rw [if_pos hk] at hch
    rcases List.mem_append.mp hch with hm | hm
    · left
      by_cases hq : q.num < 0 <;> simp [hq] at hm
      exact hm
    · right; right; exact natToChars_digits _ ch hm
  · rw [if_neg hk] at hch
    rcases List.mem_append.mp hch with hm | hm
    · rcases List.mem_append.mp hm with hm2 | hm2
      · left
        by_cases hq : q.num < 0 <;> simp [hq] at hm2
        exact hm2
      · right; right; exact natToChars_digits _ ch hm2
    · rcases List.mem_cons.mp hm with hm2 | hm2
      · right; left; exact hm2
      · right; right; exact fracChars_digits _ _ ch hm2

theorem char_notin_numToChars (q : ℚ) (x : Char) (hd : isDigitCh x = false)
    (h1 : x ≠ '-') (h2 : x ≠ '.') : x ∉ numToChars q := by
  intro hm
  rcases numToChars_chars q x hm with h | h | h
  · exact h1 h
  · exact h2 h
  · rw [h] at hd; cases hd

theorem amp_notin_numToChars (q : ℚ) : '&' ∉ numToChars q :=
  char_notin_numToChars q '&' (by decide) (by decide) (by decide)

theorem comma_notin_numToChars (q : ℚ) : ',' ∉ numToChars q :=
  char_notin_numToChars q ',' (by decide) (by decide) (by decide)

/-! ### Media Fragment codec (src/js/lib/w3c.js) -/

def tKey : List Char := ['t', '=']

def xywhKey : List Char :=
  ['x', 'y', 'w', 'h', '=', 'p', 'e', 'r', 'c', 'e', 'n', 't', ':']

/-- `Array.prototype.join(sep)`. -/
def joinParts (sep : Char) : List (List Char) → List Char
  | [] => []
  | [p] => p
  | p :: ps => p ++ sep :: joinParts sep ps

/-- `String.prototype.split(sep)` for a single-character separator. -/
def splitOnChar (sep : Char) : List Char → List (List Char)
  | [] => [[]]
  | c :: cs =>
    match splitOnChar sep cs with
    | [] => [[]]
    | h :: t => if c = sep then [] :: h :: t else (c :: h) :: t

/-- `buildMediaFragment(range, shape)` (src/js/lib/w3c.js): emits
`t=start[,end]` when a range is present, and `xywh=percent:x,y,w,h` with the
normalised box (min corner, absolute width/height) when a shape is present,
joined with `&`.  The code's `shape.x1 != null` guard is modelled by the
shape being `none`. -/
def buildMediaFragment (range : Option RangeQ) (shape : Option ShapeQ) : List Char :=
  joinParts '&'
    ((match range with
      | some r =>
        [tKey ++ numToChars r.start ++
          (match r.rend with
           | some e => ',' :: numToChars e
           | none => [])]
      | none => []) ++
     (match shape with
      | some s =>
        [xywhKey ++ numToChars (min s.x1 s.x2) ++ ',' :: numToChars (min s.y1 s.y2) ++
          ',' :: numToChars |s.x2 - s.x1| ++ ',' :: numToChars |s.y2 - s.y1|]
      | none => []))

/-- The result record of `parseMediaFragment`; `none` models both JS `null`
and `NaN` (no usable numeric value). -/
structure FragResult where
  start : Option ℚ
  rend : Option ℚ
  x : Option ℚ
  y : Option ℚ
  w : Option ℚ
  h : Option ℚ
deriving DecidableEq, Repr

def emptyFrag : FragResult := ⟨none, none, none, none, none, none⟩

/-- One `&`-separated segment of `parseMediaFragment`: a `t=` segment sets
`start` and (when a non-empty second value exists) `end`; an
`xywh=percent:` segment with exactly four comma-separated values sets the
box; anything else is ignored. -/
def parsePart (res : FragResult) (part : List Char) : FragResult :=
  if tKey.isPrefixOf part then
    let vals := splitOnChar ',' (part.drop 2)
    let res1 := { res with start := parseF (vals.getD 0 []) }
    if 1 < vals.length ∧ vals.getD 1 [] ≠ [] then
      { res1 with rend := parseF (vals.getD 1 []) }
    else res1
  else if xywhKey.isPrefixOf part then
    let vals := splitOnChar ',' (part.drop 13)
    if vals.length = 4 then
      { res with x := parseF (vals.getD 0 []), y := parseF (vals.getD 1 []),
                 w := parseF (vals.getD 2 []), h := parseF (vals.getD 3 []) }
    else res
  else res

/-- `parseMediaFragment(str)` (src/js/lib/w3c.js). -/
def parseMediaFragment (fragmentStr : List Char) : FragResult :=
  (splitOnChar '&' fragmentStr).foldl parsePart emptyFrag

theorem splitOnChar_ne_nil (sep : Char) (l : List Char) : splitOnChar sep l ≠ [] := by
  cases l with
  | nil => simp [splitOnChar]
  | cons c cs =>
    simp only [splitOnChar]
    cases h : splitOnChar sep cs with
    | nil => simp
    | cons x t => by_cases hc : c = sep <;> simp [hc]

theorem splitOnChar_no_sep (sep : Char) (l : List Char) (h : sep ∉ l) :
    splitOnChar sep l = [l] := by
  induction l with
  | nil => rfl
  | cons c cs ih =>
    have hc : c ≠ sep := fun hh => h (by simp [hh])
    have hcs : sep ∉ cs := fun hh => h (by simp [hh])
    simp only [splitOnChar, ih hcs]
    simp [hc]

theorem splitOnChar_append (sep : Char) (a b : List Char) (ha : sep ∉ a) :
    splitOnChar sep (a ++ sep :: b) = a :: splitOnChar sep b := by
  induction a with
  | nil =>
    simp only [List.nil_append, splitOnChar]
    cases h : splitOnChar sep b with
    | nil => exact absurd h (splitOnChar_ne_nil sep b)
    | cons x t => simp [h]
  | cons c cs ih =>
    have hc : c ≠ sep := fun hh => ha (by simp [hh])
    have hcs : sep ∉ cs := fun hh => ha (by simp [hh])
    show (match splitOnChar sep (cs ++ sep :: b) with
      | [] => [[]]
      | h :: t => if c = sep then [] :: h :: t else (c :: h) :: t) =
      (c :: cs) :: splitOnChar sep b
    rw [ih hcs]
    simp [hc]

theorem isPrefixOf_append_self (p r : List Char) : p.isPrefixOf (p ++ r) = true := by
  induction p with
  | nil => simp [List.isPrefixOf]
  | cons c cs ih => simp [List.isPrefixOf, ih]

theorem parsePart_t (res : FragResult) (body : List Char) :
    parsePart res (tKey ++ body) =
      if 1 < (splitOnChar ',' body).length ∧ (splitOnChar ',' body).getD 1 [] ≠ [] then
        { res with start := parseF ((splitOnChar ',' body).getD 0 []),
                   rend := parseF ((splitOnChar ',' body).getD 1 []) }
      else { res with start := parseF ((splitOnChar ',' body).getD 0 []) } := by
  unfold parsePart
  rw [if_pos (isPrefixOf_append_self tKey body),
    show (2 : ℕ) = tKey.length from rfl, List.drop_left]

theorem parsePart_xywh (res : FragResult) (body : List Char) :
    parsePart res (xywhKey ++ body) =
      if (splitOnChar ',' body).length = 4 then
        { res with x := parseF ((splitOnChar ',' body).getD 0 []),
                   y := parseF ((splitOnChar ',' body).getD 1 []),
                   w := parseF ((splitOnChar ',' body).getD 2 []),
                   h := parseF ((splitOnChar ',' body).getD 3 []) }
      else res := by
  have hT : tKey.isPrefixOf (xywhKey ++ body) = false := by
    simp [tKey, xywhKey, List.isPrefixOf, show ('t' == 'x') = false from by decide]
  unfold parsePart
  rw [if_neg (by simp [hT]), if_pos (isPrefixOf_append_self xywhKey body),
    show (13 : ℕ) = xywhKey.length from rfl, List.drop_left]

/-- The xywh part of the built fragment parses back to the bounding box. -/
theorem parsePart_xywh_built (res : FragResult) (s : ShapeQ)
    (hX : IsDec (min s.x1 s.x2)) (hY : IsDec (min s.y1 s.y2))
    (hW : IsDec |s.x2 - s.x1|) (hH : IsDec |s.y2 - s.y1|) :
    parsePart res
      (xywhKey ++ numToChars (min s.x1 s.x2) ++ ',' :: numToChars (min s.y1 s.y2) ++
        ',' :: numToChars |s.x2 - s.x1| ++ ',' :: numToChars |s.y2 - s.y1|) =
      { res with x := some (min s.x1 s.x2), y := some (min s.y1 s.y2),
                 w := some |s.x2 - s.x1|, h := some |s.y2 - s.y1| } := by
  rw [show xywhKey ++ numToChars (min s.x1 s.x2) ++ ',' :: numToChars (min s.y1 s.y2) ++
      ',' :: numToChars |s.x2 - s.x1| ++ ',' :: numToChars |s.y2 - s.y1| =
      xywhKey ++ (numToChars (min s.x1 s.x2) ++ ',' :: (numToChars (min s.y1 s.y2) ++
      ',' :: (numToChars |s.x2 - s.x1| ++ ',' :: numToChars |s.y2 - s.y1|))) from by
    simp [List.append_assoc]]
  rw [parsePart_xywh,
    splitOnChar_append ',' _ _ (comma_notin_numToChars _),
    splitOnChar_append ',' _ _ (comma_notin_numToChars _),
    splitOnChar_append ',' _ _ (comma_notin_numToChars _),
    splitOnChar_no_sep ',' _ (comma_notin_numToChars _)]
  rw [if_pos (by simp)]
  simp [List.getD, parseF_numToChars _ hX, parseF_numToChars _ hY,
    parseF_numToChars _ hW, parseF_numToChars _ hH]

/-- Claim C2: for a range with numeric start (and optional numeric end) and a
shape with numeric corners — all finite decimals — parsing the fragment
produced by `buildMediaFragment` reconstructs the same start, the same
(or absent) end, and the shape's bounding box `x = min(x1,x2)`,
`y = min(y1,y2)`, `w = |x2-x1|`, `h = |y2-y1|`. -/
theorem mediaFragment_roundtrip (r : RangeQ) (s : ShapeQ)
    (hS : IsDec r.start) (hE : ∀ e, r.rend = some e → IsDec e)
    (hX : IsDec (min s.x1 s.x2)) (hY : IsDec (min s.y1 s.y2))
    (hW : IsDec |s.x2 - s.x1|) (hH : IsDec |s.y2 - s.y1|) :
    parseMediaFragment (buildMediaFragment (some r) (some s)) =
      { start := some r.start, rend := r.rend,
        x := some (min s.x1 s.x2), y := some (min s.y1 s.y2),
        w := some |s.x2 - s.x1|, h := some |s.y2 - s.y1| } := by
  have hampX : '&' ∉ xywhKey ++ numToChars (min s.x1 s.x2) ++
      ',' :: numToChars (min s.y1 s.y2) ++ ',' :: numToChars |s.x2 - s.x1| ++
      ',' :: numToChars |s.y2 - s.y1| := by
    intro hm
    simp only [List.mem_append, List.mem_cons] at hm
    have hk : '&' ∉ xywhKey := by decide
    have hc : ¬ (('&' : Char) = ',') := by decide
    have h1 := amp_notin_numToChars (min s.x1 s.x2)
    have h2 := amp_notin_numToChars (min s.y1 s.y2)
    have h3 := amp_notin_numToChars |s.x2 - s.x1|
    have h4 := amp_notin_numToChars |s.y2 - s.y1|
    tauto
  cases hre : r.rend with
  | none =>
    have hbuild : buildMediaFragment (some r) (some s) =
        (tKey ++ numToChars r.start) ++ '&' ::
          (xywhKey ++ numToChars (min s.x1 s.x2) ++ ',' :: numToChars (min s.y1 s.y2) ++
            ',' :: numToChars |s.x2 - s.x1| ++ ',' :: numToChars |s.y2 - s.y1|) := by
      simp [buildMediaFragment, joinParts, hre]
    have hampT : '&' ∉ tKey ++ numToChars r.start := by
      intro hm
      rcases List.mem_append.mp hm with h | h
      · exact absurd h (by decide)
      · exact amp_notin_numToChars _ h
    unfold parseMediaFragment
    rw [hbuild, splitOnChar_append '&' _ _ hampT,
      splitOnChar_no_sep '&' _ hampX]
    simp only [List.foldl_cons, List.foldl_nil]
    rw [parsePart_t, splitOnChar_no_sep ',' _ (comma_notin_numToChars _),
      if_neg (by simp)]
    rw [parsePart_xywh_built _ s hX hY hW hH]
    simp [List.getD, parseF_numToChars _ hS, emptyFrag]
  | some e =>
    have hbuild : buildMediaFragment (some r) (some s) =
        (tKey ++ numToChars r.start ++ ',' :: numToChars e) ++ '&' ::
          (xywhKey ++ numToChars (min s.x1 s.x2) ++ ',' :: numToChars (min s.y1 s.y2) ++
            ',' :: numToChars |s.x2 - s.x1| ++ ',' :: numToChars |s.y2 - s.y1|) := by
      simp [buildMediaFragment, joinParts, hre]
    have hampT : '&' ∉ tKey ++ numToChars r.start ++ ',' :: numToChars e := by
      intro hm
      simp only [List.mem_append, List.mem_cons] at hm
      have hk : '&' ∉ tKey := by decide
      have hc : ¬ (('&' : Char) = ',') := by decide
      have h1 := amp_notin_numToChars r.start
      have h2 := amp_notin_numToChars e
      tauto
    unfold parseMediaFragment
    rw [hbuild, splitOnChar_append '&' _ _ hampT,
      splitOnChar_no_sep '&' _ hampX]
    simp only [List.foldl_cons, List.foldl_nil]
    rw [show tKey ++ numToChars r.start ++ ',' :: numToChars e =
        tKey ++ (numToChars r.start ++ ',' :: numToChars e) from by
      simp [List.append_assoc]]
    rw [parsePart_t, splitOnChar_append ',' _ _ (comma_notin_numToChars _),
      splitOnChar_no_sep ',' _ (comma_notin_numToChars _),
      if_pos (by exact ⟨by norm_num, by simp [List.getD, numToChars_ne_nil]⟩)]
    rw [parsePart_xywh_built _ s hX hY hW hH]
    simp [List.getD, parseF_numToChars _ hS, parseF_numToChars _ (hE e hre), emptyFrag]

theorem isDec_of_den_one (q : ℚ) (h : q.den = 1) : IsDec q := by
  unfold IsDec
  rw [h]
  exact one_dvd _

/-- Witness for C2: range 55–60 with the corner-swapped shape (60,44)–(23,9)
round-trips to start 55, end 60 and box x=23, y=9, w=37, h=35. -/
theorem mediaFragment_roundtrip_w :
    parseMediaFragment (buildMediaFragment (some ⟨55, some 60⟩) (some ⟨60, 44, 23, 9⟩)) =
      { start := some (55 : ℚ), rend := some 60, x := some 23, y := some 9,
        w := some 37, h := some 35 } := by
  have d55 : IsDec (55 : ℚ) := isDec_of_den_one _ (by norm_num)
  have d60 : IsDec (60 : ℚ) := isDec_of_den_one _ (by norm_num)
  have d23 : IsDec (23 : ℚ) := isDec_of_den_one _ (by norm_num)
  have d9 : IsDec (9 : ℚ) := isDec_of_den_one _ (by norm_num)
  have d37 : IsDec (37 : ℚ) := isDec_of_den_one _ (by norm_num)
  have d35 : IsDec (35 : ℚ) := isDec_of_den_one _ (by norm_num)
  have h := mediaFragment_roundtrip ⟨55, some 60⟩ ⟨60, 44, 23, 9⟩ d55
    (by intro e he; cases he; exact d60)
    (by rw [show min (60 : ℚ) 23 = 23 from by norm_num]; exact d23)
    (by rw [show min (44 : ℚ) 9 = 9 from by norm_num]; exact d9)
    (by rw [show |(23 : ℚ) - 60| = 37 from by norm_num]; exact d37)
    (by rw [show |(9 : ℚ) - 44| = 35 from by norm_num]; exact d35)
  rw [h]
  norm_num

/-- Claim C6: `validateRange` on a range whose `start` coerces to a finite
number ≥ 0 and whose `end` is present returns a range with `end` strictly
greater than `start`; a coerced `end ≤ start` becomes exactly `start + 1`; and
a `start` that does not coerce to a finite non-negative number becomes `0`. -/
theorem validateRange_spec (r : RawRange) :
    (∀ q e, r.rstart = some (some q) → 0 ≤ q → r.rend = some e →
      (validateRange r).rstart = some (some q) ∧
      (validateRange r).rend = some (some (if jCoerce e ≤ q then q + 1 else jCoerce e)) ∧
      (∀ e2, (validateRange r).rend = some (some e2) → q < e2)) ∧
    (∀ s, r.rstart = some s → (s = none ∨ ∃ v, s = some v ∧ v < 0) →
      (validateRange r).rstart = some (some 0)) := by
  constructor
  · intro q e hq hq0 he
    have hnotlt : ¬ q < 0 := not_lt.mpr hq0
    have hmain : validateRange r =
        { r with rstart := some (some q),
                 rend := some (some (if jCoerce e ≤ q then q + 1 else jCoerce e)) } := by
      unfold validateRange
      rw [hq, he]
      cases e with
      | none => simp [jCoerce, hnotlt]
      | some v => simp [jCoerce, hnotlt]
    refine ⟨by simp [hmain], by simp [hmain], ?_⟩
    intro e2 he2
    rw [hmain] at he2
    simp only [Option.some.injEq] at he2
    by_cases hle : jCoerce e ≤ q
    · rw [if_pos hle] at he2
      linarith [he2.symm.le]
    · rw [if_neg hle] at he2
      push_neg at hle
      linarith [he2.symm.le]
  · intro s hs hbad
    rcases hbad with rfl | ⟨v, rfl, hv⟩
    · unfold validateRange
      rw [hs]
      cases hre : r.rend with
      | none => simp
      | some e => simp
    · unfold validateRange
      rw [hs]
      cases hre : r.rend with
      | none => simp [hv]
      | some e => simp [hv]

/-- Witness for C6: `{start: 5, end: 3}` validates to `end = 6 = start + 1 > 5`. -/
theorem validateRange_spec_w :
    (validateRange ⟨some (some 5), some (some 3)⟩).rend = some (some 6) ∧
    (validateRange ⟨some (some 5), some (some 3)⟩).rstart = some (some 5) := by
  have h := (validateRange_spec ⟨some (some 5), some (some 3)⟩).1 5 (some 3)
    rfl (by norm_num) rfl
  refine ⟨?_, h.1⟩
  have h2 := h.2.1
  have : jCoerce (some 3) = 3 := by norm_num [jCoerce]
  rw [this] at h2
  norm_num at h2
  exact h2

/-! ### W3C Web Annotation adapter (src/js/lib/w3c.js)

W3C records are modelled structurally: absent JSON fields are `none`.
The `_replies` side-channel field is modelled as an explicit argument of
`fromW3C` / a second component of `toW3C`'s result. -/

/-- The JS idiom `a || b` on optional strings: both a missing value and the
empty string (falsy) fall through to the default. -/
def jsStrOr (o : Option String) (d : Option String) : Option String :=
  match o with
  | some s => if s = "" then d else some s
  | none => d

/-- `a || d` on optional strings with a plain-string default. -/
def jsStrOrS (o : Option String) (d : String) : String :=
  match o with
  | some s => if s = "" then d else s
  | none => d

def jsStrTruthy (o : Option String) : Bool :=
  match o with
  | some s => decide (s ≠ "")
  | none => false

/-- A W3C annotation `target`: either a plain id string (replies) or a
`SpecificResource` object carrying a source and a selector value. -/
inductive JTarget
  | tstr (s : String)
  | tobj (source : String) (selectorValue : Option (List Char))
deriving DecidableEq, Repr

/-- A W3C annotation `body`: either a plain string or a `TextualBody`
object with an optional `value`. -/
inductive JBody
  | bstr (s : String)
  | btext (value : Option String)
deriving DecidableEq, Repr

structure JCreator where
  ctype : String
  name : Option String
  cid : Option String
deriving DecidableEq, Repr

/-- A W3C annotation record (fields of interest to the adapter; absent JSON
fields are `none`; `commentId` is the `_commentId` side-channel field). -/
structure W3CRec where
  context : Option String
  typ : Option String
  rid : Option String
  motivation : Option String
  body : Option JBody
  target : Option JTarget
  creator : Option JCreator
  created : Option String
  markerCls : Option String
  annType : Option String
  commentId : Option String
deriving DecidableEq, Repr

def emptyW3C : W3CRec :=
  ⟨none, none, none, none, none, none, none, none, none, none, none⟩

/-- An internal comment; `meta` fields are inlined (`datetime`, `userId`,
`userName`). -/
structure IComment where
  cid : Option String
  datetime : String
  userId : Option String
  userName : Option String
  body : String
deriving DecidableEq, Repr

/-- An internal annotation record as produced by `fromW3C`. -/
structure InternalAnn where
  iid : Option String
  range : RangeQ
  shape : Option ShapeQ
  markerCls : Option String
  annType : Option String
  comments : List IComment
deriving DecidableEq, Repr

/-- `w3cShapeToInternal(x, y, w, h)` (src/js/lib/w3c.js). -/
def w3cShapeToInternal (x y w h : ℚ) : ShapeQ :=
  { x1 := x, y1 := y, x2 := x + w, y2 := y + h }

/-- `parseMediaFragment` on a possibly-null selector string: a null input
yields the all-null result (the code's early return). -/
def parseMediaFragmentO (o : Option (List Char)) : FragResult :=
  match o with
  | some s => parseMediaFragment s
  | none => emptyFrag

/-- JS truthiness of a W3C `body`: a missing body and the empty string are
falsy; a `TextualBody` object is always truthy. -/
def jsBodyTruthy (b : Option JBody) : Bool :=
  match b with
  | some (JBody.bstr s) => decide (s ≠ "")
  | some (JBody.btext _) => true
  | none => false

/-- The string a W3C `body` contributes to a comment:
`typeof body === 'string' ? body : (body.value || '')`, and `''` when the
body is absent. -/
def jsBodyStr (b : Option JBody) : String :=
  match b with
  | some (JBody.bstr s) => s
  | some (JBody.btext v) => jsStrOrS v ""
  | none => ""

/-- The comment built from one pre-grouped reply annotation in `fromW3C`;
`now` models `new Date().toISOString()`. -/
def replyToComment (reply : W3CRec) (now : String) : IComment :=
  { cid := jsStrOr reply.commentId (jsStrOr reply.rid none),
    datetime := jsStrOrS reply.created now,
    userId := reply.creator.bind (fun c => c.cid),
    userName := reply.creator.bind (fun c => jsStrOr c.name none),
    body := jsBodyStr reply.body }

/-- The root comment built from a W3C record's own `body`/`creator`/`created`. -/
def rootComment (w3c : W3CRec) (now : String) : IComment :=
  { cid := jsStrOr w3c.commentId none,
    datetime := jsStrOrS w3c.created now,
    userId := w3c.creator.bind (fun c => c.cid),
    userName := w3c.creator.bind (fun c => jsStrOr c.name none),
    body := jsBodyStr w3c.body }

/-- `fromW3C(w3c)` (src/js/lib/w3c.js): converts one W3C annotation (with
its pre-grouped `_replies`, here an explicit argument) to internal format. -/
def fromW3C (w3c : W3CRec) (replies : List W3CRec) (now : String) : InternalAnn :=
  let selVal : Option (List Char) :=
    match w3c.target with
    | some (JTarget.tobj _ sv) =>
      (match sv with
       | some l => if l = [] then none else some l
       | none => none)
    | _ => none
  let frag := parseMediaFragmentO selVal
  { iid := jsStrOr w3c.rid none,
    range := { start := frag.start.getD 0, rend := frag.rend },
    shape := match frag.x with
             | some x => some (w3cShapeToInternal x (frag.y.getD 0) (frag.w.getD 0) (frag.h.getD 0))
             | none => none,
    markerCls := jsStrOr w3c.markerCls none,
    annType := jsStrOr w3c.annType none,
    comments := (if jsBodyTruthy w3c.body then [rootComment w3c now] else []) ++
      replies.map (fun reply => replyToComment reply now) }

/-- Is this entry a reply (`motivation === 'replying'` with a string target)? -/
def isReplyRec (a : W3CRec) : Bool :=
  (a.motivation == some "replying") &&
    (match a.target with
     | some (JTarget.tstr _) => true
     | _ => false)

def replyTargetStr (a : W3CRec) : Option String :=
  match a.target with
  | some (JTarget.tstr s) => some s
  | _ => none

/-- The `parentId → [replies]` map of `fromW3CCollection` (a JS object used
as a dictionary, modelled as an association list). -/
abbrev ReplyMap := List (String × List W3CRec)

/-- `if (!replyMap[pid]) replyMap[pid] = []; replyMap[pid].push(ann)`. -/
def rmAppend (m : ReplyMap) (pid : String) (a : W3CRec) : ReplyMap :=
  match m with
  | [] => [(pid, [a])]
  | (k, v) :: rest =>
    if k = pid then (k, v ++ [a]) :: rest else (k, v) :: rmAppend rest pid a

def rmLookup (m : ReplyMap) (pid : String) : Option (List W3CRec) :=
  match m with
  | [] => none
  | (k, v) :: rest => if k = pid then some v else rmLookup rest pid

/-- The single pass of `fromW3CCollection` that gathers roots and groups
replies by parent id. -/
def splitRoots (l : List W3CRec) : List W3CRec × ReplyMap :=
  l.foldl
    (fun acc a =>
      if isReplyRec a then (acc.1, rmAppend acc.2 ((replyTargetStr a).getD "") a)
      else (acc.1 ++ [a], acc.2))
    ([], [])

/-- The `if (id && replyMap[id])` attachment step: the grouped replies for a
root, empty when the root's id is falsy or has no entry. -/
def repliesForRoot (rmap : ReplyMap) (oid : Option String) : List W3CRec :=
  match oid with
  | some rid0 => if rid0 ≠ "" then (rmLookup rmap rid0).getD [] else []
  | none => []

/-- `fromW3CCollection(list)` (src/js/lib/w3c.js): group replies under their
parent, then convert each root (attaching its grouped replies when its id is
truthy and has an entry in the map). -/
def fromW3CCollection (l : List W3CRec) (now : String) : List InternalAnn :=
  let rootsAndMap := splitRoots l
  rootsAndMap.1.map fun root => fromW3C root (repliesForRoot rootsAndMap.2 root.rid) now

/-- Spec-side description of the grouping: the replies targeting a root id,
in input order (empty for a falsy id). -/
def groupedReplies (l : List W3CRec) (oid : Option String) : List W3CRec :=
  match oid with
  | some i =>
    if i ≠ "" then l.filter (fun a => isReplyRec a && ((replyTargetStr a).getD "" == i))
    else []
  | none => []

theorem rmLookup_rmAppend (m : ReplyMap) (p q : String) (a : W3CRec) :
    rmLookup (rmAppend m p a) q =
      if q = p then some ((rmLookup m p).getD [] ++ [a]) else rmLookup m q := by
  induction m with
  | nil =>
    by_cases hq : q = p
    · subst hq
      simp [rmAppend, rmLookup]
    · simp [rmAppend, rmLookup, hq, Ne.symm hq]
  | cons kv rest ih =>
    obtain ⟨k, v⟩ := kv
    by_cases hk : k = p
    · subst hk
      by_cases hq : q = k
      · subst hq
        simp [rmAppend, rmLookup]
      · simp [rmAppend, rmLookup, hq, Ne.symm hq]
    · by_cases hq : q = p
      · subst hq
        have hkq : ¬ k = q := hk
        simp [rmAppend, rmLookup, hk, hkq, ih]
      · by_cases hkq : k = q
        · subst hkq
          simp [rmAppend, rmLookup, hk, ih, hq]
        · simp [rmAppend, rmLookup, hk, hkq, ih, hq]

theorem splitRoots_go (l : List W3CRec) (r0 : List W3CRec) (m0 : ReplyMap) :
    l.foldl
      (fun acc a =>
        if isReplyRec a then (acc.1, rmAppend acc.2 ((replyTargetStr a).getD "") a)
        else (acc.1 ++ [a], acc.2))
      (r0, m0) =
      (r0 ++ l.filter (fun a => !isReplyRec a),
       l.foldl
         (fun m a => if isReplyRec a then rmAppend m ((replyTargetStr a).getD "") a else m)
         m0) := by
  induction l generalizing r0 m0 with
  | nil => simp
  | cons a t ih =>
    by_cases ha : isReplyRec a
    · simp [List.foldl_cons, ha, ih]
    · simp [List.foldl_cons, ha, ih, List.filter_cons]

theorem rmLookup_foldl_getD (l : List W3CRec) (m : ReplyMap) (pid : String) :
    (rmLookup
      (l.foldl
        (fun m a => if isReplyRec a then rmAppend m ((replyTargetStr a).getD "") a else m)
        m) pid).getD [] =
    (rmLookup m pid).getD [] ++
      l.filter (fun a => isReplyRec a && ((replyTargetStr a).getD "" == pid)) := by
  induction l generalizing m with
  | nil => simp
  | cons a t ih =>
    by_cases ha : isReplyRec a
    · by_cases hp : (replyTargetStr a).getD "" = pid
      · rw [List.foldl_cons, if_pos ha, ih, List.filter_cons,
          if_pos (by simp [ha, hp]), hp, rmLookup_rmAppend, if_pos rfl]
        simp
      · rw [List.foldl_cons, if_pos ha, ih, List.filter_cons,
          if_neg (by simp [hp]), rmLookup_rmAppend,
          if_neg (fun h => hp h.symm)]
    · rw [List.foldl_cons, if_neg ha, ih, List.filter_cons, if_neg (by simp [ha])]

/-- Claim C5: `fromW3CCollection` keeps exactly the non-reply entries as
roots (replies are grouped under matching roots and orphaned replies are
silently dropped, never promoted), each root converting with exactly the
replies whose string target equals its id, and a converted annotation's
comments are its own body comment(s) followed by one comment per grouped
reply. -/
theorem fromW3CCollection_spec (l : List W3CRec) (now : String) :
    (fromW3CCollection l now).length = (l.filter (fun a => !isReplyRec a)).length ∧
    (∀ (k : ℕ) (root : W3CRec), (l.filter (fun a => !isReplyRec a))[k]? = some root →
      (fromW3CCollection l now)[k]? =
        some (fromW3C root (groupedReplies l root.rid) now)) ∧
    (∀ (root : W3CRec) (replies : List W3CRec),
      (fromW3C root replies now).comments =
        (fromW3C root [] now).comments ++
          replies.map (fun reply => replyToComment reply now)) := by
  have hsplit : splitRoots l =
      (l.filter (fun a => !isReplyRec a),
       l.foldl
         (fun m a => if isReplyRec a then rmAppend m ((replyTargetStr a).getD "") a else m)
         []) := by
    have := splitRoots_go l [] []
    simpa [splitRoots] using this
  have harg : ∀ oid,
      repliesForRoot
        (l.foldl
          (fun m a => if isReplyRec a then rmAppend m ((replyTargetStr a).getD "") a else m)
          []) oid = groupedReplies l oid := by
    intro oid
    cases oid with
    | none => rfl
    | some rid0 =>
      by_cases h0 : rid0 ≠ ""
      · unfold repliesForRoot groupedReplies
        dsimp only
        rw [if_pos h0, if_pos h0, rmLookup_foldl_getD]
        simp [rmLookup]
      · unfold repliesForRoot groupedReplies
        dsimp only
        rw [if_neg h0, if_neg h0]
  have hmap : fromW3CCollection l now =
      (l.filter (fun a => !isReplyRec a)).map
        (fun root => fromW3C root (groupedReplies l root.rid) now) := by
    unfold fromW3CCollection
    rw [hsplit]
    apply List.map_congr_left
    intro root _
    rw [harg]
  refine ⟨?_, ?_, ?_⟩
  · rw [hmap, List.length_map]
  · intro k root hk
    rw [hmap, List.getElem?_map, hk]
    rfl
  · intro root replies
    simp [fromW3C]

/-- Witness for C5: one root `r1`, one reply targeting `r1` and one orphan
reply targeting the unknown id `r9` yield exactly one internal annotation,
and it has two comments (root body + grouped reply); the orphan is dropped. -/
theorem fromW3CCollection_spec_w :
    (fromW3CCollection
      [{ emptyW3C with rid := some "r1", body := some (JBody.bstr "hi") },
       { emptyW3C with rid := some "c1", motivation := some "replying",
                       target := some (JTarget.tstr "r1"), body := some (JBody.bstr "yo") },
       { emptyW3C with motivation := some "replying",
                       target := some (JTarget.tstr "r9"), body := some (JBody.bstr "zz") }]
      "t0").length = 1 ∧
    ((fromW3CCollection
      [{ emptyW3C with rid := some "r1", body := some (JBody.bstr "hi") },
       { emptyW3C with rid := some "c1", motivation := some "replying",
                       target := some (JTarget.tstr "r1"), body := some (JBody.bstr "yo") },
       { emptyW3C with motivation := some "replying",
                       target := some (JTarget.tstr "r9"), body := some (JBody.bstr "zz") }]
      "t0")[0]?).map (fun ia => ia.comments.length) = some 2 := by
  have h := fromW3CCollection_spec
    [{ emptyW3C with rid := some "r1", body := some (JBody.bstr "hi") },
     { emptyW3C with rid := some "c1", motivation := some "replying",
                     target := some (JTarget.tstr "r1"), body := some (JBody.bstr "yo") },
     { emptyW3C with motivation := some "replying",
                     target := some (JTarget.tstr "r9"), body := some (JBody.bstr "zz") }]
    "t0"
  constructor
  · rw [h.1]
    decide
  · rw [h.2.1 0 { emptyW3C with rid := some "r1", body := some (JBody.bstr "hi") } (by decide)]
    decide

/-! ### W3C serialization and format detection (src/js/lib/w3c.js) -/

def W3CContext : String := "http://www.w3.org/ns/anno.jsonld"

/-- `isW3CFormat(obj)` (src/js/lib/w3c.js): detected as W3C when
`type === 'Annotation'`, or `@context` is the W3C context URI, or both a
target and a body are present.  (The guard for non-object input is outside
this structural model.) -/
def isW3CFormat (obj : W3CRec) : Bool :=
  (obj.typ == some "Annotation") || (obj.context == some W3CContext) ||
    (obj.target.isSome && obj.body.isSome)

/-- The `creator` object built from a comment's meta. -/
def commentCreator (c : IComment) : JCreator :=
  { ctype := "Person", name := jsStrOr c.userName none, cid := c.userId }

/-- `toW3C(internal, videoSrc, idPrefix)` (src/js/lib/w3c.js): the main
annotation together with the `_replies` side channel (one reply annotation
per comment after the first). -/
def toW3C (internal : InternalAnn) (videoSrc : String) (idPref : Option String) :
    W3CRec × List W3CRec :=
  let pref := jsStrOrS idPref ""
  let ident : Option String := internal.iid.map (fun s => pref ++ s)
  let selectorValue := buildMediaFragment (some internal.range) internal.shape
  let firstC := internal.comments.head?
  let main : W3CRec :=
    { context := some W3CContext,
      typ := some "Annotation",
      rid := ident,
      motivation := some "commenting",
      body := some (JBody.btext (some (match firstC with | some c => c.body | none => ""))),
      target := some (JTarget.tobj videoSrc (some selectorValue)),
      creator := firstC.map commentCreator,
      created := firstC.map (fun c => c.datetime),
      markerCls := if jsStrTruthy internal.markerCls then internal.markerCls else none,
      annType := if jsStrTruthy internal.annType then internal.annType else none,
      commentId := none }
  let replies : List W3CRec := (internal.comments.drop 1).map fun c =>
    { context := some W3CContext,
      typ := some "Annotation",
      rid := c.cid.map (fun s => pref ++ s),
      motivation := some "replying",
      body := some (JBody.btext (some c.body)),
      target := ident.map JTarget.tstr,
      creator := some (commentCreator c),
      created := some c.datetime,
      markerCls := none,
      annType := none,
      commentId := none }
  (main, replies)

/-- `toW3CCollection(internalAnnotations, videoSrc, idPrefix)`
(src/js/lib/w3c.js): flatten each annotation's root followed by its
replies. -/
def toW3CCollection (internals : List InternalAnn) (videoSrc : String)
    (idPref : Option String) : List W3CRec :=
  internals.foldl
    (fun acc ann =>
      acc ++ [(toW3C ann videoSrc idPref).1] ++ (toW3C ann videoSrc idPref).2)
    []

theorem isW3CFormat_toW3C_fst (internal : InternalAnn) (videoSrc : String)
    (idPref : Option String) : isW3CFormat (toW3C internal videoSrc idPref).1 = true := by
  simp [toW3C, isW3CFormat]

theorem isW3CFormat_toW3C_replies (internal : InternalAnn) (videoSrc : String)
    (idPref : Option String) :
    ∀ reply ∈ (toW3C internal videoSrc idPref).2, isW3CFormat reply = true := by
  intro reply hm
  simp only [toW3C, List.mem_map] at hm
  obtain ⟨c, _, rfl⟩ := hm
  simp [isW3CFormat]

theorem toW3CCollection_go (videoSrc : String) (idPref : Option String)
    (internals : List InternalAnn) :
    ∀ acc : List W3CRec, (∀ x ∈ acc, isW3CFormat x = true) →
      ∀ x ∈ internals.foldl
        (fun acc ann =>
          acc ++ [(toW3C ann videoSrc idPref).1] ++ (toW3C ann videoSrc idPref).2)
        acc, isW3CFormat x = true := by
  induction internals with
  | nil => intro acc hacc x hx; exact hacc x hx
  | cons ann t ih =>
    intro acc hacc x hx
    rw [List.foldl_cons] at hx
    refine ih _ ?_ x hx
    intro y hy
    rcases List.mem_append.mp hy with hy2 | hy2
    · rcases List.mem_append.mp hy2 with hy3 | hy3
      · exact hacc y hy3
      · rw [List.mem_singleton.mp hy3]
        exact isW3CFormat_toW3C_fst ann videoSrc idPref
    · exact isW3CFormat_toW3C_replies ann videoSrc idPref y hy2

/-- Claim C10: every record produced by `toW3C` (the root and each reply) and
every element of `toW3CCollection` satisfies `isW3CFormat`, so serialized
output is always re-detected as W3C format when loaded back. -/
theorem toW3C_detected (internals : List InternalAnn) (internal : InternalAnn)
    (videoSrc : String) (idPref : Option String) :
    isW3CFormat (toW3C internal videoSrc idPref).1 = true ∧
    (∀ reply ∈ (toW3C internal videoSrc idPref).2, isW3CFormat reply = true) ∧
    (∀ x ∈ toW3CCollection internals videoSrc idPref, isW3CFormat x = true) := by
  refine ⟨isW3CFormat_toW3C_fst _ _ _, isW3CFormat_toW3C_replies _ _ _, ?_⟩
  intro x hx
  exact toW3CCollection_go videoSrc idPref internals [] (by intro y hy; cases hy) x hx

/-- Witness for C10: a two-comment annotation serializes to a root that is
detected as W3C format, and so is its reply in the flattened collection. -/
theorem toW3C_detected_w :
    isW3CFormat (toW3C
      ⟨some "a1", ⟨5, some 10⟩, none, none, none,
        [⟨some "c1", "2024-01-01T00:00:00Z", some "1", some "Al", "hi"⟩,
         ⟨some "c2", "2024-01-02T00:00:00Z", none, none, "yo"⟩]⟩
      "http://example.com/v.mp4" (some "p-")).1 = true :=
  (toW3C_detected []
    ⟨some "a1", ⟨5, some 10⟩, none, none, none,
      [⟨some "c1", "2024-01-01T00:00:00Z", some "1", some "Al", "hi"⟩,
       ⟨some "c2", "2024-01-02T00:00:00Z", none, none, "yo"⟩]⟩
    "http://example.com/v.mp4" (some "p-")).1

/-! ### Annotation state index (the AnnotationState component)

State fields mirror the component: `active` is the index of
`_activeAnnotation` in `annots`; `currentTime`, `duration` and `frameRate`
are the player inputs the component reads.  Effects on the player/DOM
(pause, rendering) are outside the model; the fired open/close/edit/delete
events are returned alongside the new state. -/

/-- `Utils.isWithinRange(start, end, n)`: a missing (or zero, falsy) `end`
defaults to `start + 1`. -/
def isWithinRange (start : ℚ) (rend : Option ℚ) (n : ℚ) : Bool :=
  decide (start ≤ n ∧ n ≤ qOptOr rend (start + 1))

/-- JS `parseInt` on a finite number: truncation toward zero. -/
def jsTrunc (q : ℚ) : ℤ := if q < 0 then ⌈q⌉ else ⌊q⌋

/-- `Utils.parseIntObj` on a numeric range: each field is replaced by its
`parseInt` truncation when that truncation is truthy (non-zero). -/
def parseIntRangeQ (r : RangeQ) : RangeQ :=
  { start := if jsTrunc r.start ≠ 0 then ((jsTrunc r.start : ℤ) : ℚ) else r.start,
    rend := r.rend.map fun e => if jsTrunc e ≠ 0 then ((jsTrunc e : ℤ) : ℚ) else e }

def parseIntShapeQ (s : ShapeQ) : ShapeQ :=
  { x1 := if jsTrunc s.x1 ≠ 0 then ((jsTrunc s.x1 : ℤ) : ℚ) else s.x1,
    y1 := if jsTrunc s.y1 ≠ 0 then ((jsTrunc s.y1 : ℤ) : ℚ) else s.y1,
    x2 := if jsTrunc s.x2 ≠ 0 then ((jsTrunc s.x2 : ℤ) : ℚ) else s.x2,
    y2 := if jsTrunc s.y2 ≠ 0 then ((jsTrunc s.y2 : ℤ) : ℚ) else s.y2 }

/-- `Utils.validateRange` restricted to already-numeric fields (the
`RawRange` version above models the string/NaN coercions). -/
def validateRangeQ (r : RangeQ) : RangeQ :=
  let s := if r.start < 0 then 0 else r.start
  { start := s,
    rend := r.rend.map fun e =>
      let e1 := if e < 0 then 0 else e
      if e1 ≤ s then s + 1 else e1 }

def clampQ (v : ℚ) : ℚ := max 0 (min 100 v)

/-- `Utils.validateShape`: clamp each corner into [0, 100]. -/
def validateShapeQ (s : ShapeQ) : ShapeQ :=
  { x1 := clampQ s.x1, y1 := clampQ s.y1, x2 := clampQ s.x2, y2 := clampQ s.y2 }

/-- An annotation as held by the state index (its `secondsActive` array is
built at construction / edit time). -/
structure Annot where
  aid : String
  range : RangeQ
  shape : Option ShapeQ
  secondsActive : List ℚ
deriving DecidableEq, Repr

instance : Inhabited Annot := ⟨⟨"", ⟨0, none⟩, none, []⟩⟩

/-- The `annotationTimeMap` (a JS object keyed by seconds, modelled as an
association list with unique keys in insertion order). -/
abbrev TimeMap := List (ℚ × List ℕ)

def tmLookup (m : TimeMap) (k : ℚ) : Option (List ℕ) :=
  match m with
  | [] => none
  | (k0, v) :: rest => if k0 = k then some v else tmLookup rest k

/-- `const val = timeMap[second] || []; val.push(i); timeMap[second] = val`. -/
def tmInsert (m : TimeMap) (k : ℚ) (i : ℕ) : TimeMap :=
  match m with
  | [] => [(k, [i])]
  | (k0, v) :: rest =>
    if k0 = k then (k0, v ++ [i]) :: rest else (k0, v) :: tmInsert rest k i

/-- `rebuildAnnotationTimeMap()`: the second → indices map and the
`id → annotation` index (the JS assignment `index[id] = annotation` lets the
last entry with a given id win; the pairs are kept in order and looked up
from the back). -/
def rebuildTimeMap (annots : List Annot) : TimeMap × List (String × ℕ) :=
  (annots.enum.foldl
    (fun tm p => p.2.secondsActive.foldl (fun m sec => tmInsert m sec p.1) tm) [],
   annots.enum.map fun p => (p.2.aid, p.1))

def idxLookup (idx : List (String × ℕ)) (id : String) : Option ℕ :=
  (idx.reverse.find? (fun p => p.1 == id)).map (fun p => p.2)

/-- The observable annotation events fired during a state transition. -/
inductive AEvent
  | closed (i : ℕ)
  | opened (i : ℕ)
  | edited (i : ℕ)
  | deleted (i : ℕ)
  | stateChange
deriving DecidableEq, Repr

structure AnnState where
  enabled : Bool
  skipLiveCheck : Bool
  lastVideoTime : ℚ
  currentTime : ℚ
  annots : List Annot
  timeMap : TimeMap
  annIdx : List (String × ℕ)
  active : Option ℕ
  frameRate : Option ℚ
  duration : ℚ
deriving DecidableEq, Repr

/-- `activeAnnotationsForTime(time)`. -/
def activeAnnotsForTime (st : AnnState) (time : ℚ) : List ℕ :=
  if st.annots.length = 0 then [] else (tmLookup st.timeMap time).getD []

/-- `openAnnotation(annotation, skipLiveCheck, pause, previewOnly,
forceSnapToStart)`: close the previously active annotation, open the new one
(snapping the playhead to the range start unless the floored current time is
within the range), record it active and update `lastVideoTime`. `pause` and
`previewOnly` only affect the player/DOM. -/
def openAnnot (st : AnnState) (i : ℕ) (skip _pause _previewOnly forceSnap : Bool) :
    AnnState × List AEvent :=
  let closeEvts : List AEvent :=
    match st.active with
    | some j => [AEvent.closed j]
    | none => []
  let a := st.annots.getD i default
  let snap := forceSnap ||
    !(isWithinRange a.range.start a.range.rend ((⌊st.currentTime⌋ : ℤ) : ℚ))
  let ct := if snap then a.range.start else st.currentTime
  ({ st with skipLiveCheck := skip, active := some i, currentTime := ct,
             lastVideoTime := a.range.start },
   closeEvts ++ [AEvent.opened i])

/-- `this.activeAnnotation.close()` in the no-match branches of
`setLiveAnnotation` (a null object when nothing is active). -/
def closeActive (st : AnnState) : AnnState × List AEvent :=
  match st.active with
  | some j => ({ st with active := none }, [AEvent.closed j])
  | none => (st, [])

def rawMatches (st : AnnState) : List ℕ :=
  activeAnnotsForTime st ((⌊st.currentTime⌋ : ℤ) : ℚ)

/-- The frame-rate refinement of the candidate list: with a truthy
`frameRate` the candidates are filtered against the precise (non-floored)
current time, the end defaulting to `start + 1/frameRate` when falsy. -/
def filteredMatches (st : AnnState) : List ℕ :=
  match st.frameRate with
  | some f =>
    if f = 0 then rawMatches st
    else
      (rawMatches st).filter fun i =>
        let a := st.annots.getD i default
        decide (a.range.start ≤ st.currentTime ∧
          st.currentTime ≤ qOptOr a.range.rend (a.range.start + 1 / f))
  | none => rawMatches st

/-- `setLiveAnnotation()` (AnnotationState): resolve the live annotation for
the current playback time. -/
def setLiveAnnot (st : AnnState) : AnnState × List AEvent :=
  if !st.enabled then (st, [])
  else
    let time : ℚ := ((⌊st.currentTime⌋ : ℤ) : ℚ)
    if st.skipLiveCheck then
      if time ≠ st.lastVideoTime then ({ st with skipLiveCheck := false }, [])
      else (st, [])
    else if (rawMatches st).isEmpty then closeActive st
    else if (filteredMatches st).isEmpty then closeActive st
    else
      let k := (filteredMatches st).getLastD 0
      match st.active with
      | none => openAnnot st k false false true false
      | some j =>
        if j = k then (st, [])
        else
          if (st.annots.getD k default).range.start =
              (st.annots.getD j default).range.start ∧
             (st.annots.getD k default).range.start = time then (st, [])
          else openAnnot st k false false true false

/-- The forward scan `for (let i = 0; i < annotations.length; i++)`. -/
def findFirstIdxGo (annots : List Annot) (p : Annot → Bool) (i : ℕ) : Option ℕ :=
  if h : i < annots.length then
    (if p (annots.getD i default) then some i else findFirstIdxGo annots p (i + 1))
  else none
termination_by annots.length - i

/-- The backward scan `for (let i = annotations.length - 1; i >= 0; i--)`
(the argument is one past the highest index tried). -/
def findLastIdxGo (annots : List Annot) (p : Annot → Bool) : ℕ → Option ℕ
  | 0 => none
  | k + 1 => if p (annots.getD k default) then some k else findLastIdxGo annots p k

/-- `nextAnnotation()`: from an active annotation, the next index (wrapping
last → first); otherwise the first annotation starting after the floored
current time, falling back to the first annotation. Always opens with
`skipLiveCheck = true` and pause. -/
def nextAnnot (st : AnnState) : AnnState × List AEvent :=
  match st.active with
  | some ind =>
    let nextInd := if ind = st.annots.length - 1 then 0 else ind + 1
    openAnnot st nextInd true true false false
  | none =>
    match findFirstIdxGo st.annots
      (fun a => decide (((⌊st.currentTime⌋ : ℤ) : ℚ) < a.range.start)) 0 with
    | some i => openAnnot st i true true false false
    | none => openAnnot st 0 true true false false

/-- `prevAnnotation()`: from an active annotation, the previous index
(wrapping first → last); otherwise the last annotation starting before the
floored current time, falling back to the last annotation. -/
def prevAnnot (st : AnnState) : AnnState × List AEvent :=
  match st.active with
  | some ind =>
    let nextInd := if ind = 0 then st.annots.length - 1 else ind - 1
    openAnnot st nextInd true true false false
  | none =>
    match findLastIdxGo st.annots
      (fun a => decide (a.range.start < ((⌊st.currentTime⌋ : ℤ) : ℚ)))
      st.annots.length with
    | some i => openAnnot st i true true false false
    | none => openAnnot st (st.annots.length - 1) true true false false

/-- `findAnnotation(id)`: the id index (last write wins), with the
`annotations.find` linear fallback. -/
def findAnnot (st : AnnState) (id : String) : Option ℕ :=
  match idxLookup st.annIdx id with
  | some i => some i
  | none => st.annots.findIdx? (fun a => a.aid == id)

/-- `sortAnnotations()`: stable sort ascending by `range.start`. -/
def sortAnnots (annots : List Annot) : List Annot :=
  annots.mergeSort (fun a b => decide (a.range.start ≤ b.range.start))

/-- `stateChanged()`: re-sort, rebuild the derived maps, fire
`onStateChanged`. -/
def stateChanged (st : AnnState) : AnnState × List AEvent :=
  let annots1 := sortAnnots st.annots
  let tmIdx := rebuildTimeMap annots1
  ({ st with annots := annots1, timeMap := tmIdx.1, annIdx := tmIdx.2 },
   [AEvent.stateChange])

/-- `editAnnotationById(id, range, shape)`: silently a no-op when the id is
unknown; otherwise close the annotation if it is open, revalidate
range/shape, rebuild `secondsActive`, and run `stateChanged` (the
marker/DOM rebuild is outside the model). -/
def editAnnotById (st : AnnState) (id : String) (range : Option RangeQ)
    (shape : Option ShapeQ) : AnnState × List AEvent :=
  match findAnnot st id with
  | none => (st, [])
  | some i =>
    let closePair : AnnState × List AEvent :=
      if st.active = some i then ({ st with active := none }, [AEvent.closed i])
      else (st, [])
    let a := closePair.1.annots.getD i default
    let a1 := match range with
              | some r => { a with range := validateRangeQ (parseIntRangeQ r) }
              | none => a
    let a2 := match shape with
              | some sh => { a1 with shape := some (validateShapeQ (parseIntShapeQ sh)) }
              | none => a1
    let a3 := { a2 with
      secondsActive := buildSecondsActiveArray a2.range closePair.1.frameRate closePair.1.duration }
    let scPair := stateChanged { closePair.1 with annots := closePair.1.annots.set i a3 }
    (scPair.1, closePair.2 ++ scPair.2 ++ [AEvent.edited i])

/-- `removeAnnotation(annotation)`: splice out of the collection, run
`stateChanged`, fire `annotationDeleted`. -/
def removeAnnot (st : AnnState) (i : ℕ) : AnnState × List AEvent :=
  let scPair := stateChanged { st with annots := st.annots.eraseIdx i }
  (scPair.1, scPair.2 ++ [AEvent.deleted i])

/-- `destroyAnnotationById(id)`: teardown of the found annotation (close if
open, then remove); silently a no-op when the id is unknown. -/
def destroyAnnotById (st : AnnState) (id : String) : AnnState × List AEvent :=
  match findAnnot st id with
  | none => (st, [])
  | some i =>
    let closePair : AnnState × List AEvent :=
      if st.active = some i then ({ st with active := none }, [AEvent.closed i])
      else (st, [])
    let remPair := removeAnnot closePair.1 i
    (remPair.1, closePair.2 ++ remPair.2)

/-- Claim C7: while `skipLiveCheck` is set, a playback-time tick of
`setLiveAnnotation` opens and closes nothing and changes nothing except
possibly clearing the flag, and the flag is cleared only on a tick whose
floored current time differs from the last observed time. -/
theorem setLiveAnnot_skip (st : AnnState) (h : st.skipLiveCheck = true) :
    (setLiveAnnot st).2 = [] ∧
    ((setLiveAnnot st).1 = st ∨ (setLiveAnnot st).1 = { st with skipLiveCheck := false }) ∧
    ((setLiveAnnot st).1.skipLiveCheck = false →
      ((⌊st.currentTime⌋ : ℤ) : ℚ) ≠ st.lastVideoTime) := by
  unfold setLiveAnnot
  cases he : st.enabled with
  | false =>
    rw [if_pos (by rfl)]
    refine ⟨rfl, Or.inl rfl, ?_⟩
    intro habs
    rw [h] at habs
    cases habs
  | true =>
    rw [if_neg (by simp), if_pos (by rw [h])]
    by_cases ht : ((⌊st.currentTime⌋ : ℤ) : ℚ) ≠ st.lastVideoTime
    · rw [if_pos ht]
      exact ⟨rfl, Or.inr rfl, fun _ => ht⟩
    · rw [if_neg ht]
      refine ⟨rfl, Or.inl rfl, ?_⟩
      intro habs
      rw [h] at habs
      cases habs

/-- Witness for C7: a skipping tick at time 8 with last observed time 0
fires no events, and merely clears the flag. -/
theorem setLiveAnnot_skip_w :
    (setLiveAnnot ⟨true, true, 0, 8, [], [], [], none, none, 100⟩).2 = [] ∧
    ((setLiveAnnot ⟨true, true, 0, 8, [], [], [], none, none, 100⟩).1 =
        ⟨true, true, 0, 8, [], [], [], none, none, 100⟩ ∨
      (setLiveAnnot ⟨true, true, 0, 8, [], [], [], none, none, 100⟩).1 =
        { (⟨true, true, 0, 8, [], [], [], none, none, 100⟩ : AnnState) with
            skipLiveCheck := false }) :=
  ⟨(setLiveAnnot_skip ⟨true, true, 0, 8, [], [], [], none, none, 100⟩ rfl).1,
   (setLiveAnnot_skip ⟨true, true, 0, 8, [], [], [], none, none, 100⟩ rfl).2.1⟩

theorem filteredMatches_of_raw_nil (st : AnnState) (h : rawMatches st = []) :
    filteredMatches st = [] := by
  unfold filteredMatches
  cases st.frameRate with
  | none => exact h
  | some f => by_cases hf : f = 0 <;> simp [hf, h]

theorem openAnnot_opens (st : AnnState) (i : ℕ) (s p v f : Bool) :
    (openAnnot st i s p v f).1.active = some i ∧
    (openAnnot st i s p v f).1.skipLiveCheck = s ∧
    AEvent.opened i ∈ (openAnnot st i s p v f).2 ∧
    (openAnnot st i s p v f).2 ≠ [] := by
  unfold openAnnot
  refine ⟨rfl, rfl, by simp, by simp⟩

/-- Claim C1: on an enabled, non-skipping tick that still has candidates
after the optional frame-rate refinement, `setLiveAnnotation` selects the
LAST candidate in collection order (start-time ascending) as the live
annotation: whenever the tick does anything it opens exactly that
candidate, and when it does nothing the active annotation already is that
candidate or shares its `range.start` at the boundary second. -/
theorem setLiveAnnot_selects_last (st : AnnState)
    (hen : st.enabled = true) (hsk : st.skipLiveCheck = false)
    (hfm : filteredMatches st ≠ []) :
    ((setLiveAnnot st).2 ≠ [] →
      (setLiveAnnot st).1.active = some ((filteredMatches st).getLastD 0) ∧
      AEvent.opened ((filteredMatches st).getLastD 0) ∈ (setLiveAnnot st).2) ∧
    ((setLiveAnnot st).2 = [] →
      setLiveAnnot st = (st, []) ∧
      ∃ j, st.active = some j ∧
        (j = (filteredMatches st).getLastD 0 ∨
         ((st.annots.getD ((filteredMatches st).getLastD 0) default).range.start =
            (st.annots.getD j default).range.start ∧
          (st.annots.getD ((filteredMatches st).getLastD 0) default).range.start =
            ((⌊st.currentTime⌋ : ℤ) : ℚ)))) := by
  have hraw : rawMatches st ≠ [] := by
    intro h0
    exact hfm (filteredMatches_of_raw_nil st h0)
  unfold setLiveAnnot
  rw [if_neg (by rw [hen]; simp), if_neg (by rw [hsk]; simp),
    if_neg (by simp [List.isEmpty_iff, hraw]),
    if_neg (by simp [List.isEmpty_iff, hfm])]
  cases hact : st.active with
  | none =>
    have ho := openAnnot_opens st ((filteredMatches st).getLastD 0) false false true false
    refine ⟨fun _ => ⟨ho.1, ho.2.2.1⟩, fun habs => absurd habs ho.2.2.2⟩
  | some j =>
    dsimp only
    by_cases hjk : j = (filteredMatches st).getLastD 0
    · rw [if_pos hjk]
      exact ⟨fun habs => absurd rfl habs,
        fun _ => ⟨rfl, j, rfl, Or.inl hjk⟩⟩
    · rw [if_neg hjk]
      by_cases hb : (st.annots.getD ((filteredMatches st).getLastD 0) default).range.start =
          (st.annots.getD j default).range.start ∧
          (st.annots.getD ((filteredMatches st).getLastD 0) default).range.start =
            ((⌊st.currentTime⌋ : ℤ) : ℚ)
      · rw [if_pos hb]
        exact ⟨fun habs => absurd rfl habs,
          fun _ => ⟨rfl, j, rfl, Or.inr hb⟩⟩
      · rw [if_neg hb]
        have ho := openAnnot_opens st ((filteredMatches st).getLastD 0) false false true false
        refine ⟨fun _ => ⟨ho.1, ho.2.2.1⟩, fun habs => absurd habs ho.2.2.2⟩

/-- Witness for C1: annotations A (start 5, end 9) and B (start 7, end 9)
are both active at second 8; resolution at time 8 opens B (index 1, the
last candidate). -/
theorem setLiveAnnot_selects_last_w :
    filteredMatches
      ⟨true, false, 0, 8,
        [⟨"a", ⟨5, some 9⟩, none, [5, 6, 7, 8, 9]⟩, ⟨"b", ⟨7, some 9⟩, none, [7, 8, 9]⟩],
        [(5, [0]), (6, [0]), (7, [0, 1]), (8, [0, 1]), (9, [0, 1])],
        [("a", 0), ("b", 1)], none, none, 100⟩ = [0, 1] ∧
    (setLiveAnnot
      ⟨true, false, 0, 8,
        [⟨"a", ⟨5, some 9⟩, none, [5, 6, 7, 8, 9]⟩, ⟨"b", ⟨7, some 9⟩, none, [7, 8, 9]⟩],
        [(5, [0]), (6, [0]), (7, [0, 1]), (8, [0, 1]), (9, [0, 1])],
        [("a", 0), ("b", 1)], none, none, 100⟩).1.active = some 1 ∧
    AEvent.opened 1 ∈ (setLiveAnnot
      ⟨true, false, 0, 8,
        [⟨"a", ⟨5, some 9⟩, none, [5, 6, 7, 8, 9]⟩, ⟨"b", ⟨7, some 9⟩, none, [7, 8, 9]⟩],
        [(5, [0]), (6, [0]), (7, [0, 1]), (8, [0, 1]), (9, [0, 1])],
        [("a", 0), ("b", 1)], none, none, 100⟩).2 := by
  have hfm : filteredMatches
      ⟨true, false, 0, 8,
        [⟨"a", ⟨5, some 9⟩, none, [5, 6, 7, 8, 9]⟩, ⟨"b", ⟨7, some 9⟩, none, [7, 8, 9]⟩],
        [(5, [0]), (6, [0]), (7, [0, 1]), (8, [0, 1]), (9, [0, 1])],
        [("a", 0), ("b", 1)], none, none, 100⟩ = [0, 1] := by decide
  have h := setLiveAnnot_selects_last
    ⟨true, false, 0, 8,
      [⟨"a", ⟨5, some 9⟩, none, [5, 6, 7, 8, 9]⟩, ⟨"b", ⟨7, some 9⟩, none, [7, 8, 9]⟩],
      [(5, [0]), (6, [0]), (7, [0, 1]), (8, [0, 1]), (9, [0, 1])],
      [("a", 0), ("b", 1)], none, none, 100⟩
    rfl rfl (by rw [hfm]; simp)
  have hne : (setLiveAnnot
      ⟨true, false, 0, 8,
        [⟨"a", ⟨5, some 9⟩, none, [5, 6, 7, 8, 9]⟩, ⟨"b", ⟨7, some 9⟩, none, [7, 8, 9]⟩],
        [(5, [0]), (6, [0]), (7, [0, 1]), (8, [0, 1]), (9, [0, 1])],
        [("a", 0), ("b", 1)], none, none, 100⟩).2 ≠ [] := by decide
  have h2 := h.1 hne
  rw [hfm] at h2
  exact ⟨hfm, by simpa using h2.1, by simpa using h2.2⟩

/-- Claim C9: for an id not present in the collection (the derived id index
being consistent with the collection), `editAnnotationById` and
`destroyAnnotationById` return without raising or firing anything and leave
the entire state — collection, sort order, time map, id index,
active-annotation reference — unchanged. -/
theorem missingId_noop (st : AnnState) (id : String) (range : Option RangeQ)
    (shape : Option ShapeQ)
    (hidx : st.annIdx = (rebuildTimeMap st.annots).2)
    (h : ∀ a ∈ st.annots, a.aid ≠ id) :
    editAnnotById st id range shape = (st, []) ∧ destroyAnnotById st id = (st, []) := by
  have h1 : idxLookup st.annIdx id = none := by
    have hnone : ((rebuildTimeMap st.annots).2.reverse.find? (fun p => p.1 == id)) = none := by
      apply List.find?_eq_none.mpr
      intro p hp
      have hp2 : p ∈ (rebuildTimeMap st.annots).2 := List.mem_reverse.mp hp
      unfold rebuildTimeMap at hp2
      simp only [List.mem_map] at hp2
      obtain ⟨q, hq, rfl⟩ := hp2
      have hq2 : q.2 ∈ st.annots := by
        have hm := List.enum_map_snd st.annots
        rw [← hm]
        exact List.mem_map_of_mem _ hq
      simp [h q.2 hq2]
    unfold idxLookup
    rw [hidx, hnone]
    rfl
  have h2 : st.annots.findIdx? (fun a => a.aid == id) = none := by
    apply List.findIdx?_eq_none_iff.mpr
    intro a ha
    simp [h a ha]
  have hfind : findAnnot st id = none := by
    unfold findAnnot
    rw [h1]
    exact h2
  unfold editAnnotById destroyAnnotById
  rw [hfind]
  exact ⟨rfl, rfl⟩

/-- Witness for C9: editing or destroying the unknown id `"z"` in a
one-annotation state changes nothing and fires nothing. -/
theorem missingId_noop_w :
    editAnnotById
      ⟨false, false, 0, 0, [⟨"a", ⟨5, some 9⟩, none, [5]⟩],
        (rebuildTimeMap [⟨"a", ⟨5, some 9⟩, none, [5]⟩]).1,
        (rebuildTimeMap [⟨"a", ⟨5, some 9⟩, none, [5]⟩]).2, none, none, 100⟩
      "z" none none =
      (⟨false, false, 0, 0, [⟨"a", ⟨5, some 9⟩, none, [5]⟩],
        (rebuildTimeMap [⟨"a", ⟨5, some 9⟩, none, [5]⟩]).1,
        (rebuildTimeMap [⟨"a", ⟨5, some 9⟩, none, [5]⟩]).2, none, none, 100⟩, []) ∧
    destroyAnnotById
      ⟨false, false, 0, 0, [⟨"a", ⟨5, some 9⟩, none, [5]⟩],
        (rebuildTimeMap [⟨"a", ⟨5, some 9⟩, none, [5]⟩]).1,
        (rebuildTimeMap [⟨"a", ⟨5, some 9⟩, none, [5]⟩]).2, none, none, 100⟩
      "z" =
      (⟨false, false, 0, 0, [⟨"a", ⟨5, some 9⟩, none, [5]⟩],
        (rebuildTimeMap [⟨"a", ⟨5, some 9⟩, none, [5]⟩]).1,
        (rebuildTimeMap [⟨"a", ⟨5, some 9⟩, none, [5]⟩]).2, none, none, 100⟩, []) :=
  missingId_noop _ "z" none none rfl (by decide)

theorem findFirstIdxGo_eq_some (annots : List Annot) (p : Annot → Bool) (k : ℕ)
    (hk : k < annots.length) (hp : p (annots.getD k default) = true) :
    ∀ d i, k - i ≤ d → i ≤ k →
      (∀ j, i ≤ j → j < k → p (annots.getD j default) = false) →
      findFirstIdxGo annots p i = some k := by
  intro d
  induction d with
  | zero =>
    intro i hd hik hj
    have : i = k := by omega
    subst this
    unfold findFirstIdxGo
    rw [dif_pos hk, if_pos hp]
  | succ d ih =>
    intro i hd hik hj
    by_cases hik2 : i = k
    · subst hik2
      unfold findFirstIdxGo
      rw [dif_pos hk, if_pos hp]
    · have hilt : i < k := by omega
      have hpi : p (annots.getD i default) = false := hj i le_rfl hilt
      unfold findFirstIdxGo
      rw [dif_pos (by omega : i < annots.length),
        if_neg (by rw [hpi]; exact Bool.false_ne_true)]
      exact ih (i + 1) (by omega) (by omega) (fun j h1 h2 => hj j (by omega) h2)

theorem findFirstIdxGo_eq_none (annots : List Annot) (p : Annot → Bool) :
    ∀ d i, annots.length - i ≤ d →
      (∀ j, i ≤ j → j < annots.length → p (annots.getD j default) = false) →
      findFirstIdxGo annots p i = none := by
  intro d
  induction d with
  | zero =>
    intro i hd hj
    unfold findFirstIdxGo
    rw [dif_neg (by omega)]
  | succ d ih =>
    intro i hd hj
    by_cases hi : i < annots.length
    · unfold findFirstIdxGo
      rw [dif_pos hi, if_neg (by rw [hj i le_rfl hi]; exact Bool.false_ne_true)]
      exact ih (i + 1) (by omega) (fun j h1 h2 => hj j (by omega) h2)
    · unfold findFirstIdxGo
      rw [dif_neg hi]

theorem findLastIdxGo_eq_some (annots : List Annot) (p : Annot → Bool) :
    ∀ m k, k < m → p (annots.getD k default) = true →
      (∀ j, k < j → j < m → p (annots.getD j default) = false) →
      findLastIdxGo annots p m = some k := by
  intro m
  induction m with
  | zero => intro k hk hp hj; exact absurd hk (Nat.not_lt_zero k)
  | succ m ih =>
    intro k hk hp hj
    by_cases hkm : k = m
    · subst hkm
      unfold findLastIdxGo
      rw [if_pos hp]
    · have hklt : k < m := by omega
      unfold findLastIdxGo
      rw [if_neg (by rw [hj m (by omega) (by omega)]; exact Bool.false_ne_true)]
      exact ih k hklt hp (fun j h1 h2 => hj j h1 (by omega))

theorem findLastIdxGo_eq_none (annots : List Annot) (p : Annot → Bool) :
    ∀ m, (∀ j, j < m → p (annots.getD j default) = false) →
      findLastIdxGo annots p m = none := by
  intro m
  induction m with
  | zero => intro hj; rfl
  | succ m ih =>
    intro hj
    unfold findLastIdxGo
    rw [if_neg (by rw [hj m (by omega)]; exact Bool.false_ne_true)]
    exact ih (fun j hjm => hj j (by omega))

/-- The observable effect of a navigation call: annotation `k` ends up open
and active with `skipLiveCheck` set. -/
abbrev opensIdx (r : AnnState × List AEvent) (k : ℕ) : Prop :=
  r.1.active = some k ∧ r.1.skipLiveCheck = true ∧ AEvent.opened k ∈ r.2

/-- Claim C8: on a non-empty sorted collection, with an active annotation at
(valid) index i `nextAnnotation` opens index i+1 wrapping last → first and
`prevAnnotation` opens i-1 wrapping first → last; with no active
annotation `nextAnnotation` opens the first annotation whose `range.start`
exceeds the floored current time (index 0 when none exists) and
`prevAnnotation` opens the last annotation whose `range.start` is below the
floored time (the last index when none exists); all four cases open with
`skipLiveCheck = true`. -/
theorem nav_spec (st : AnnState) (hne : st.annots ≠ [])
    (hsorted : st.annots.Chain' (fun a b => a.range.start ≤ b.range.start)) :
    (∀ i, st.active = some i → i < st.annots.length →
      opensIdx (nextAnnot st) (if i = st.annots.length - 1 then 0 else i + 1) ∧
      opensIdx (prevAnnot st) (if i = 0 then st.annots.length - 1 else i - 1)) ∧
    (st.active = none →
      (∀ k, k < st.annots.length →
        ((⌊st.currentTime⌋ : ℤ) : ℚ) < (st.annots.getD k default).range.start →
        (∀ j, j < k →
          (st.annots.getD j default).range.start ≤ ((⌊st.currentTime⌋ : ℤ) : ℚ)) →
        opensIdx (nextAnnot st) k) ∧
      ((∀ j, j < st.annots.length →
          (st.annots.getD j default).range.start ≤ ((⌊st.currentTime⌋ : ℤ) : ℚ)) →
        opensIdx (nextAnnot st) 0) ∧
      (∀ k, k < st.annots.length →
        (st.annots.getD k default).range.start < ((⌊st.currentTime⌋ : ℤ) : ℚ) →
        (∀ j, k < j → j < st.annots.length →
          ((⌊st.currentTime⌋ : ℤ) : ℚ) ≤ (st.annots.getD j default).range.start) →
        opensIdx (prevAnnot st) k) ∧
      ((∀ j, j < st.annots.length →
          ((⌊st.currentTime⌋ : ℤ) : ℚ) ≤ (st.annots.getD j default).range.start) →
        opensIdx (prevAnnot st) (st.annots.length - 1))) := by
  have hopen : ∀ k, opensIdx (openAnnot st k true true false false) k := by
    intro k
    have h := openAnnot_opens st k true true false false
    exact ⟨h.1, h.2.1, h.2.2.1⟩
  constructor
  · intro i hact hi
    constructor
    · simp only [nextAnnot, hact]
      exact hopen _
    · simp only [prevAnnot, hact]
      exact hopen _
  · intro hact
    refine ⟨?_, ?_, ?_, ?_⟩
    · intro k hk hkgt hj
      have hfind : findFirstIdxGo st.annots
          (fun a => decide (((⌊st.currentTime⌋ : ℤ) : ℚ) < a.range.start)) 0 = some k := by
        apply findFirstIdxGo_eq_some st.annots _ k hk (decide_eq_true hkgt) k 0
          (by omega) (by omega)
        intro j _ hjk
        exact decide_eq_false (not_lt.mpr (hj j hjk))
      simp only [nextAnnot, hact, hfind]
      exact hopen _
    · intro hj
      have hfind : findFirstIdxGo st.annots
          (fun a => decide (((⌊st.currentTime⌋ : ℤ) : ℚ) < a.range.start)) 0 = none := by
        apply findFirstIdxGo_eq_none st.annots _ st.annots.length 0 (by omega)
        intro j _ hjlen
        exact decide_eq_false (not_lt.mpr (hj j hjlen))
      simp only [nextAnnot, hact, hfind]
      exact hopen _
    · intro k hk hklt hj
      have hfind : findLastIdxGo st.annots
          (fun a => decide (a.range.start < ((⌊st.currentTime⌋ : ℤ) : ℚ)))
          st.annots.length = some k := by
        apply findLastIdxGo_eq_some st.annots _ st.annots.length k hk
          (decide_eq_true hklt)
        intro j hjk hjlen
        exact decide_eq_false (not_lt.mpr (hj j hjk hjlen))
      simp only [prevAnnot, hact, hfind]
      exact hopen _
    · intro hj
      have hfind : findLastIdxGo st.annots
          (fun a => decide (a.range.start < ((⌊st.currentTime⌋ : ℤ) : ℚ)))
          st.annots.length = none := by
        apply findLastIdxGo_eq_none
        intro j hjlen
        exact decide_eq_false (not_lt.mpr (hj j hjlen))
      simp only [prevAnnot, hact, hfind]
      exact hopen _

/-- Witness for C8: with two annotations (starts 5 and 7) and the second one
active, `nextAnnotation` wraps to index 0 and `prevAnnotation` moves to
index 0, both with `skipLiveCheck` set. -/
theorem nav_spec_w :
    opensIdx (nextAnnot
      ⟨true, false, 0, 8,
        [⟨"a", ⟨5, some 9⟩, none, [5, 6, 7, 8, 9]⟩, ⟨"b", ⟨7, some 9⟩, none, [7, 8, 9]⟩],
        [(5, [0]), (6, [0]), (7, [0, 1]), (8, [0, 1]), (9, [0, 1])],
        [("a", 0), ("b", 1)], some 1, none, 100⟩) 0 ∧
    opensIdx (prevAnnot
      ⟨true, false, 0, 8,
        [⟨"a", ⟨5, some 9⟩, none, [5, 6, 7, 8, 9]⟩, ⟨"b", ⟨7, some 9⟩, none, [7, 8, 9]⟩],
        [(5, [0]), (6, [0]), (7, [0, 1]), (8, [0, 1]), (9, [0, 1])],
        [("a", 0), ("b", 1)], some 1, none, 100⟩) 0 := by
  have h := (nav_spec
    ⟨true, false, 0, 8,
      [⟨"a", ⟨5, some 9⟩, none, [5, 6, 7, 8, 9]⟩, ⟨"b", ⟨7, some 9⟩, none, [7, 8, 9]⟩],
      [(5, [0]), (6, [0]), (7, [0, 1]), (8, [0, 1]), (9, [0, 1])],
      [("a", 0), ("b", 1)], some 1, none, 100⟩
    (by decide)
    (List.chain'_cons.mpr ⟨by decide, List.chain'_singleton _⟩)).1 1 rfl (by decide)
  exact ⟨by simpa using h.1, by simpa using h.2⟩
